import Mathlib

/-!
A verification development for a small JavaScript date-helper library
(formatDate, parseDate, addDays, getDayOfYear, getWeekNumber, getDaysInMonth,
timeAgo).  The library's Date values are embedded as an `Int` time value
(milliseconds since the epoch), with the calendar-field accessors
(getFullYear, getMonth, getDate, getDay, getHours, getMinutes, getSeconds),
the Date constructor (MakeDay with the two-digit-year rule), the day/month
helpers and the string primitives (replace-first-occurrence, split, parseInt,
padStart, Number.toString) translated from the ECMAScript specification of the
operations the source uses.  Deliberate idealizations, stated once here:
local time is modelled as UTC (a fixed zero offset, no DST), the TimeClip
range limit is dropped (time values are unbounded integers), and arithmetic
is exact integer arithmetic rather than IEEE doubles (all quantities involved
are integral, and `Int` division by a positive constant coincides with the
JavaScript Math.floor of the exact quotient).  Strings are lists of
characters.  parseDate returns an `Option Int`: `none` stands for the Invalid
Date (NaN) value.  timeAgo takes the ambient current time as an explicit
first argument.
-/

def dayFromYear (y : Int) : Int :=
  365 * (y - 1970) + (y - 1969) / 4 - (y - 1901) / 100 + (y - 1601) / 400

def leapDays (y : Int) : Int :=
  if y % 4 = 0 ∧ ¬(y % 100 = 0 ∧ ¬y % 400 = 0) then 1 else 0

def yearFromDay (d : Int) : Int :=
  let y0 := 1970 + 400 * d / 146097
  let y1 := if d < dayFromYear y0 then y0 - 1 else y0
  let y2 := if dayFromYear (y1 + 1) ≤ d then y1 + 1 else y1
  let y3 := if dayFromYear (y2 + 1) ≤ d then y2 + 1 else y2
  y3

def daysBeforeMonth (mn L : Int) : Int :=
  if mn ≤ 0 then 0
  else if mn = 1 then 31
  else if mn = 2 then 59 + L
  else if mn = 3 then 90 + L
  else if mn = 4 then 120 + L
  else if mn = 5 then 151 + L
  else if mn = 6 then 181 + L
  else if mn = 7 then 212 + L
  else if mn = 8 then 243 + L
  else if mn = 9 then 273 + L
  else if mn = 10 then 304 + L
  else 334 + L

def monthFromDwy (dwy L : Int) : Int :=
  if dwy < 31 then 0
  else if dwy < 59 + L then 1
  else if dwy < 90 + L then 2
  else if dwy < 120 + L then 3
  else if dwy < 151 + L then 4
  else if dwy < 181 + L then 5
  else if dwy < 212 + L then 6
  else if dwy < 243 + L then 7
  else if dwy < 273 + L then 8
  else if dwy < 304 + L then 9
  else if dwy < 334 + L then 10
  else 11

def dateFromDwy (dwy L : Int) : Int :=
  dwy - daysBeforeMonth (monthFromDwy dwy L) L + 1

def monthLength (mn L : Int) : Int :=
  if mn = 1 then 28 + L
  else if mn = 3 ∨ mn = 5 ∨ mn = 8 ∨ mn = 10 then 30
  else 31

def makeDay (y m d : Int) : Int :=
  dayFromYear (y + m / 12) + daysBeforeMonth (m % 12) (leapDays (y + m / 12)) + d - 1

def yearOfDay (z : Int) : Int := yearFromDay z

def monthOfDay (z : Int) : Int :=
  monthFromDwy (z - dayFromYear (yearFromDay z)) (leapDays (yearFromDay z))

def dateOfDay (z : Int) : Int :=
  dateFromDwy (z - dayFromYear (yearFromDay z)) (leapDays (yearFromDay z))

theorem dayFromYear_succ (y : Int) :
    dayFromYear (y + 1) = dayFromYear y + 365 + leapDays y := by
  unfold dayFromYear leapDays; split_ifs <;> omega

set_option maxHeartbeats 1000000 in
theorem yearFromDay_spec (d : Int) :
    dayFromYear (yearFromDay d) ≤ d ∧ d < dayFromYear (yearFromDay d + 1) := by
  unfold yearFromDay dayFromYear
  simp only
  split_ifs <;> omega

theorem leapDays_cases (y : Int) : leapDays y = 0 ∨ leapDays y = 1 := by
  unfold leapDays; split_ifs <;> simp

theorem dayFromYear_mono {a b : Int} (h : a ≤ b) : dayFromYear a ≤ dayFromYear b := by
  have key : ∀ n : Nat, dayFromYear a ≤ dayFromYear (a + n) := by
    intro n
    induction n with
    | zero => simp
    | succ k ih =>
      have hstep := dayFromYear_succ (a + k)
      have hl := leapDays_cases (a + k)
      have harg : a + ((k : Int) + 1) = (a + k) + 1 := by ring
      push_cast
      push_cast at ih
      rw [harg, hstep]
      omega
  have hb : b = a + ((b - a).toNat : Int) := by omega
  rw [hb]; exact key _

theorem yearFromDay_eq (y d : Int) (h1 : dayFromYear y ≤ d)
    (h2 : d < dayFromYear (y + 1)) : yearFromDay d = y := by
  obtain ⟨s1, s2⟩ := yearFromDay_spec d
  by_contra hne
  rcases lt_or_gt_of_ne hne with hlt | hgt
  · have := dayFromYear_mono (show yearFromDay d + 1 ≤ y by omega)
    omega
  · have := dayFromYear_mono (show y + 1 ≤ yearFromDay d by omega)
    omega

theorem yearFromDay_add (y w : Int) (h0 : 0 ≤ w) (h1 : w < 365 + leapDays y) :
    yearFromDay (dayFromYear y + w) = y := by
  apply yearFromDay_eq
  · omega
  · rw [dayFromYear_succ]; omega

-- evaluation lemmas for the month lookup chain
theorem mfd_eq_0 (w L : Int) (h : w < 31) : monthFromDwy w L = 0 := by
  delta monthFromDwy; rw [if_pos h]

theorem mfd_eq_1 (w L : Int) (h1 : 31 ≤ w) (h2 : w < 59 + L) : monthFromDwy w L = 1 := by
  delta monthFromDwy
  repeat rw [if_neg (by omega)]
  rw [if_pos h2]

theorem mfd_eq_2 (w L : Int) (hL : 0 ≤ L) (h1 : 59 + L ≤ w) (h2 : w < 90 + L) : monthFromDwy w L = 2 := by
  delta monthFromDwy
  repeat rw [if_neg (by omega)]
  rw [if_pos h2]

theorem mfd_eq_3 (w L : Int) (hL : 0 ≤ L) (h1 : 90 + L ≤ w) (h2 : w < 120 + L) : monthFromDwy w L = 3 := by
  delta monthFromDwy
  repeat rw [if_neg (by omega)]
  rw [if_pos h2]

theorem mfd_eq_4 (w L : Int) (hL : 0 ≤ L) (h1 : 120 + L ≤ w) (h2 : w < 151 + L) : monthFromDwy w L = 4 := by
  delta monthFromDwy
  repeat rw [if_neg (by omega)]
  rw [if_pos h2]

theorem mfd_eq_5 (w L : Int) (hL : 0 ≤ L) (h1 : 151 + L ≤ w) (h2 : w < 181 + L) : monthFromDwy w L = 5 := by
  delta monthFromDwy
  repeat rw [if_neg (by omega)]
  rw [if_pos h2]

theorem mfd_eq_6 (w L : Int) (hL : 0 ≤ L) (h1 : 181 + L ≤ w) (h2 : w < 212 + L) : monthFromDwy w L = 6 := by
  delta monthFromDwy
  repeat rw [if_neg (by omega)]
  rw [if_pos h2]

theorem mfd_eq_7 (w L : Int) (hL : 0 ≤ L) (h1 : 212 + L ≤ w) (h2 : w < 243 + L) : monthFromDwy w L = 7 := by
  delta monthFromDwy
  repeat rw [if_neg (by omega)]
  rw [if_pos h2]

theorem mfd_eq_8 (w L : Int) (hL : 0 ≤ L) (h1 : 243 + L ≤ w) (h2 : w < 273 + L) : monthFromDwy w L = 8 := by
  delta monthFromDwy
  repeat rw [if_neg (by omega)]
  rw [if_pos h2]

theorem mfd_eq_9 (w L : Int) (hL : 0 ≤ L) (h1 : 273 + L ≤ w) (h2 : w < 304 + L) : monthFromDwy w L = 9 := by
  delta monthFromDwy
  repeat rw [if_neg (by omega)]
  rw [if_pos h2]

theorem mfd_eq_10 (w L : Int) (hL : 0 ≤ L) (h1 : 304 + L ≤ w) (h2 : w < 334 + L) : monthFromDwy w L = 10 := by
  delta monthFromDwy
  repeat rw [if_neg (by omega)]
  rw [if_pos h2]

theorem mfd_eq_11 (w L : Int) (hL : 0 ≤ L) (h1 : 334 + L ≤ w) : monthFromDwy w L = 11 := by
  delta monthFromDwy
  repeat rw [if_neg (by omega)]

-- literal evaluations of the cumulative-days table
theorem dbm_0 (L : Int) : daysBeforeMonth 0 L = 0 := rfl
theorem dbm_1 (L : Int) : daysBeforeMonth 1 L = 31 := rfl
theorem dbm_2 (L : Int) : daysBeforeMonth 2 L = 59 + L := rfl
theorem dbm_3 (L : Int) : daysBeforeMonth 3 L = 90 + L := rfl
theorem dbm_4 (L : Int) : daysBeforeMonth 4 L = 120 + L := rfl
theorem dbm_5 (L : Int) : daysBeforeMonth 5 L = 151 + L := rfl
theorem dbm_6 (L : Int) : daysBeforeMonth 6 L = 181 + L := rfl
theorem dbm_7 (L : Int) : daysBeforeMonth 7 L = 212 + L := rfl
theorem dbm_8 (L : Int) : daysBeforeMonth 8 L = 243 + L := rfl
theorem dbm_9 (L : Int) : daysBeforeMonth 9 L = 273 + L := rfl
theorem dbm_10 (L : Int) : daysBeforeMonth 10 L = 304 + L := rfl
theorem dbm_11 (L : Int) : daysBeforeMonth 11 L = 334 + L := rfl

theorem ml_0 (L : Int) : monthLength 0 L = 31 := rfl
theorem ml_1 (L : Int) : monthLength 1 L = 28 + L := rfl
theorem ml_2 (L : Int) : monthLength 2 L = 31 := rfl
theorem ml_3 (L : Int) : monthLength 3 L = 30 := rfl
theorem ml_4 (L : Int) : monthLength 4 L = 31 := rfl
theorem ml_5 (L : Int) : monthLength 5 L = 30 := rfl
theorem ml_6 (L : Int) : monthLength 6 L = 31 := rfl
theorem ml_7 (L : Int) : monthLength 7 L = 31 := rfl
theorem ml_8 (L : Int) : monthLength 8 L = 30 := rfl
theorem ml_9 (L : Int) : monthLength 9 L = 31 := rfl
theorem ml_10 (L : Int) : monthLength 10 L = 30 := rfl
theorem ml_11 (L : Int) : monthLength 11 L = 31 := rfl

-- cumulative-days bounds for in-range months
theorem dbm_bounds (mn L : Int) (hL : 0 ≤ L) (hm0 : 0 ≤ mn) (hm1 : mn ≤ 11) :
    0 ≤ daysBeforeMonth mn L ∧
    daysBeforeMonth mn L + monthLength mn L ≤ 365 + L := by
  interval_cases mn <;>
    simp only [dbm_0, dbm_1, dbm_2, dbm_3, dbm_4, dbm_5, dbm_6, dbm_7, dbm_8, dbm_9,
      dbm_10, dbm_11, ml_0, ml_1, ml_2, ml_3, ml_4, ml_5, ml_6, ml_7, ml_8, ml_9,
      ml_10, ml_11] <;> omega

-- inverse of the month lookup: a day falling inside month mn looks up as mn
theorem mfd_inv (w L mn : Int) (hL : 0 ≤ L) (hm0 : 0 ≤ mn) (hm1 : mn ≤ 11)
    (h1 : daysBeforeMonth mn L ≤ w) (h2 : w < daysBeforeMonth mn L + monthLength mn L) :
    monthFromDwy w L = mn := by
  interval_cases mn <;>
    simp only [dbm_0, dbm_1, dbm_2, dbm_3, dbm_4, dbm_5, dbm_6, dbm_7, dbm_8, dbm_9,
      dbm_10, dbm_11, ml_0, ml_1, ml_2, ml_3, ml_4, ml_5, ml_6, ml_7, ml_8, ml_9,
      ml_10, ml_11] at h1 h2
  · exact mfd_eq_0 _ _ (by omega)
  · exact mfd_eq_1 _ _ (by omega) (by omega)
  · exact mfd_eq_2 _ _ hL (by omega) (by omega)
  · exact mfd_eq_3 _ _ hL (by omega) (by omega)
  · exact mfd_eq_4 _ _ hL (by omega) (by omega)
  · exact mfd_eq_5 _ _ hL (by omega) (by omega)
  · exact mfd_eq_6 _ _ hL (by omega) (by omega)
  · exact mfd_eq_7 _ _ hL (by omega) (by omega)
  · exact mfd_eq_8 _ _ hL (by omega) (by omega)
  · exact mfd_eq_9 _ _ hL (by omega) (by omega)
  · exact mfd_eq_10 _ _ hL (by omega) (by omega)
  · exact mfd_eq_11 _ _ hL (by omega)

set_option maxHeartbeats 800000 in
theorem dwy_decomp (dwy L : Int) (hL : L = 0 ∨ L = 1)
    (h0 : 0 ≤ dwy) (h1 : dwy < 365 + L) :
    daysBeforeMonth (monthFromDwy dwy L) L + dateFromDwy dwy L - 1 = dwy ∧
    0 ≤ monthFromDwy dwy L ∧ monthFromDwy dwy L ≤ 11 ∧
    1 ≤ dateFromDwy dwy L ∧
    dateFromDwy dwy L ≤ monthLength (monthFromDwy dwy L) L := by
  unfold dateFromDwy
  rcases lt_or_le dwy 31 with h | h
  · rw [mfd_eq_0 dwy L h]; simp only [dbm_0, ml_0]; omega
  rcases lt_or_le dwy (59 + L) with h2 | h2
  · rw [mfd_eq_1 dwy L h h2]; simp only [dbm_1, ml_1]; omega
  rcases lt_or_le dwy (90 + L) with h3 | h3
  · rw [mfd_eq_2 dwy L (by omega) h2 h3]; simp only [dbm_2, ml_2]; omega
  rcases lt_or_le dwy (120 + L) with h4 | h4
  · rw [mfd_eq_3 dwy L (by omega) h3 h4]; simp only [dbm_3, ml_3]; omega
  rcases lt_or_le dwy (151 + L) with h5 | h5
  · rw [mfd_eq_4 dwy L (by omega) h4 h5]; simp only [dbm_4, ml_4]; omega
  rcases lt_or_le dwy (181 + L) with h6 | h6
  · rw [mfd_eq_5 dwy L (by omega) h5 h6]; simp only [dbm_5, ml_5]; omega
  rcases lt_or_le dwy (212 + L) with h7 | h7
  · rw [mfd_eq_6 dwy L (by omega) h6 h7]; simp only [dbm_6, ml_6]; omega
  rcases lt_or_le dwy (243 + L) with h8 | h8
  · rw [mfd_eq_7 dwy L (by omega) h7 h8]; simp only [dbm_7, ml_7]; omega
  rcases lt_or_le dwy (273 + L) with h9 | h9
  · rw [mfd_eq_8 dwy L (by omega) h8 h9]; simp only [dbm_8, ml_8]; omega
  rcases lt_or_le dwy (304 + L) with h10 | h10
  · rw [mfd_eq_9 dwy L (by omega) h9 h10]; simp only [dbm_9, ml_9]; omega
  rcases lt_or_le dwy (334 + L) with h11 | h11
  · rw [mfd_eq_10 dwy L (by omega) h10 h11]; simp only [dbm_10, ml_10]; omega
  · rw [mfd_eq_11 dwy L (by omega) h11]; simp only [dbm_11, ml_11]; omega

theorem fieldsOfDay_add (y w : Int) (h0 : 0 ≤ w) (h1 : w < 365 + leapDays y) :
    monthOfDay (dayFromYear y + w) = monthFromDwy w (leapDays y) ∧
    dateOfDay (dayFromYear y + w) = dateFromDwy w (leapDays y) := by
  unfold monthOfDay dateOfDay
  rw [yearFromDay_add y w h0 h1]
  have hw : dayFromYear y + w - dayFromYear y = w := by ring
  rw [hw]
  exact ⟨rfl, rfl⟩

theorem makeDay_eq (y mn d : Int) (hm0 : 0 ≤ mn) (hm1 : mn ≤ 11) :
    makeDay y mn d = dayFromYear y + (daysBeforeMonth mn (leapDays y) + d - 1) := by
  have hdiv : mn / 12 = 0 := by omega
  have hmod : mn % 12 = mn := by omega
  unfold makeDay
  rw [hdiv, hmod, add_zero]
  ring

theorem makeDay_fields (y mn d : Int) (hm0 : 0 ≤ mn) (hm1 : mn ≤ 11)
    (hd0 : 1 ≤ d) (hd1 : d ≤ monthLength mn (leapDays y)) :
    yearOfDay (makeDay y mn d) = y ∧
    monthOfDay (makeDay y mn d) = mn ∧
    dateOfDay (makeDay y mn d) = d := by
  have hL := leapDays_cases y
  have hb := dbm_bounds mn (leapDays y) (by omega) hm0 hm1
  have hkey := makeDay_eq y mn d hm0 hm1
  have hw0 : 0 ≤ daysBeforeMonth mn (leapDays y) + d - 1 := by omega
  have hw1 : daysBeforeMonth mn (leapDays y) + d - 1 < 365 + leapDays y := by omega
  rw [hkey]
  have hflds := fieldsOfDay_add y _ hw0 hw1
  have hmon : monthFromDwy (daysBeforeMonth mn (leapDays y) + d - 1) (leapDays y) = mn :=
    mfd_inv _ _ mn (by omega) hm0 hm1 (by omega) (by omega)
  refine ⟨yearFromDay_add y _ hw0 hw1, ?_, ?_⟩
  · rw [hflds.1]; exact hmon
  · rw [hflds.2]; unfold dateFromDwy; rw [hmon]; omega

theorem fields_range (z : Int) :
    0 ≤ monthOfDay z ∧ monthOfDay z ≤ 11 ∧ 1 ≤ dateOfDay z ∧
    dateOfDay z ≤ monthLength (monthOfDay z) (leapDays (yearOfDay z)) := by
  have hs := yearFromDay_spec z
  rw [dayFromYear_succ] at hs
  have hL := leapDays_cases (yearFromDay z)
  have hd := dwy_decomp (z - dayFromYear (yearFromDay z)) (leapDays (yearFromDay z)) hL
    (by omega) (by omega)
  unfold monthOfDay dateOfDay yearOfDay
  exact ⟨hd.2.1, hd.2.2.1, hd.2.2.2.1, hd.2.2.2.2⟩

theorem day_roundtrip (z : Int) :
    makeDay (yearOfDay z) (monthOfDay z) (dateOfDay z) = z := by
  have hs := yearFromDay_spec z
  rw [dayFromYear_succ] at hs
  have hL := leapDays_cases (yearFromDay z)
  have hd := dwy_decomp (z - dayFromYear (yearFromDay z)) (leapDays (yearFromDay z)) hL
    (by omega) (by omega)
  have hm : 0 ≤ monthOfDay z ∧ monthOfDay z ≤ 11 := by
    unfold monthOfDay
    exact ⟨hd.2.1, hd.2.2.1⟩
  rw [makeDay_eq _ _ _ hm.1 hm.2]
  unfold yearOfDay monthOfDay dateOfDay
  omega

/- millisecond-level accessors (ECMAScript time values, local offset 0) -/

def dayOfTv (t : Int) : Int := t / 86400000

def timeWithinDay (t : Int) : Int := t % 86400000

def getFullYear (t : Int) : Int := yearOfDay (dayOfTv t)

def getMonth (t : Int) : Int := monthOfDay (dayOfTv t)

def getDate (t : Int) : Int := dateOfDay (dayOfTv t)

def getDay (t : Int) : Int := (dayOfTv t + 4) % 7

def getHours (t : Int) : Int := (t / 3600000) % 24

def getMinutes (t : Int) : Int := (t / 60000) % 60

def getSeconds (t : Int) : Int := (t / 1000) % 60

def mkLocalDate (y m d : Int) : Int :=
  86400000 * makeDay (if 0 ≤ y ∧ y ≤ 99 then 1900 + y else y) m d

theorem tv_decomp (t : Int) :
    t = 86400000 * dayOfTv t + timeWithinDay t ∧
    0 ≤ timeWithinDay t ∧ timeWithinDay t < 86400000 := by
  unfold dayOfTv timeWithinDay; omega

theorem dayOfTv_mul_add (z r : Int) (h0 : 0 ≤ r) (h1 : r < 86400000) :
    dayOfTv (86400000 * z + r) = z ∧ timeWithinDay (86400000 * z + r) = r := by
  unfold dayOfTv timeWithinDay; omega

/- calendar-level successor/predecessor (specification side) -/

def daysInMonthSpec (m y : Int) : Int :=
  if m = 2 then 28 + leapDays y
  else if m = 4 ∨ m = 6 ∨ m = 9 ∨ m = 11 then 30
  else 31

def nextCalendarDay (c : Int × Int × Int) : Int × Int × Int :=
  if c.2.2 < daysInMonthSpec c.2.1 c.1 then (c.1, c.2.1, c.2.2 + 1)
  else if c.2.1 < 12 then (c.1, c.2.1 + 1, 1)
  else (c.1 + 1, 1, 1)

def prevCalendarDay (c : Int × Int × Int) : Int × Int × Int :=
  if 1 < c.2.2 then (c.1, c.2.1, c.2.2 - 1)
  else if 1 < c.2.1 then (c.1, c.2.1 - 1, daysInMonthSpec (c.2.1 - 1) c.1)
  else (c.1 - 1, 12, 31)

def advanceCalendarDays (c : Int × Int × Int) (n : Int) : Int × Int × Int :=
  if 0 ≤ n then nextCalendarDay^[n.toNat] c else prevCalendarDay^[(-n).toNat] c

def civilOfDay (z : Int) : Int × Int × Int := (yearOfDay z, monthOfDay z + 1, dateOfDay z)

theorem dims_eq_mlen (mn y : Int) (hm0 : 0 ≤ mn) (hm1 : mn ≤ 11) :
    daysInMonthSpec (mn + 1) y = monthLength mn (leapDays y) := by
  interval_cases mn <;> rfl

theorem dbm_step (mn L : Int) (hm0 : 0 ≤ mn) (hm1 : mn ≤ 10) :
    daysBeforeMonth (mn + 1) L = daysBeforeMonth mn L + monthLength mn L := by
  interval_cases mn <;>
    norm_num [dbm_0, dbm_1, dbm_2, dbm_3, dbm_4, dbm_5, dbm_6, dbm_7, dbm_8, dbm_9,
      dbm_10, dbm_11, ml_0, ml_1, ml_2, ml_3, ml_4, ml_5, ml_6, ml_7, ml_8, ml_9,
      ml_10, ml_11] <;> try omega

theorem next_day (z : Int) : civilOfDay (z + 1) = nextCalendarDay (civilOfDay z) := by
  have hr := fields_range z
  have hL := leapDays_cases (yearOfDay z)
  have hrt := day_roundtrip z
  have hkey := makeDay_eq (yearOfDay z) (monthOfDay z) (dateOfDay z) hr.1 hr.2.1
  have hdims := dims_eq_mlen (monthOfDay z) (yearOfDay z) hr.1 hr.2.1
  unfold civilOfDay nextCalendarDay
  simp only
  rcases lt_or_le (dateOfDay z) (monthLength (monthOfDay z) (leapDays (yearOfDay z))) with hlt | hge
  · rw [if_pos (by omega)]
    have h1 : z + 1 = makeDay (yearOfDay z) (monthOfDay z) (dateOfDay z + 1) := by
      rw [makeDay_eq _ _ _ hr.1 hr.2.1]; omega
    have hf := makeDay_fields (yearOfDay z) (monthOfDay z) (dateOfDay z + 1) hr.1 hr.2.1
      (by omega) (by omega)
    rw [h1]
    unfold yearOfDay at hf ⊢
    rw [hf.1, hf.2.1, hf.2.2]
  · have hd : dateOfDay z = monthLength (monthOfDay z) (leapDays (yearOfDay z)) := by omega
    rw [if_neg (by omega)]
    rcases lt_or_le (monthOfDay z) 11 with hm | hm
    · rw [if_pos (by omega)]
      have hstep := dbm_step (monthOfDay z) (leapDays (yearOfDay z)) hr.1 (by omega)
      have h1 : z + 1 = makeDay (yearOfDay z) (monthOfDay z + 1) 1 := by
        rw [makeDay_eq _ _ _ (by omega) (by omega), hstep]; omega
      have hf := makeDay_fields (yearOfDay z) (monthOfDay z + 1) 1 (by omega) (by omega)
        (by omega) (by
          have := dbm_bounds (monthOfDay z + 1) (leapDays (yearOfDay z)) (by omega)
            (by omega) (by omega)
          unfold monthLength
          split_ifs <;> omega)
      rw [h1]
      unfold yearOfDay at hf ⊢
      rw [hf.1, hf.2.1, hf.2.2]
    · have hm11 : monthOfDay z = 11 := by omega
      rw [if_neg (by omega)]
      have hml : monthLength (monthOfDay z) (leapDays (yearOfDay z)) = 31 := by
        rw [hm11]; exact ml_11 _
      have hdbm : daysBeforeMonth (monthOfDay z) (leapDays (yearOfDay z)) = 334 + leapDays (yearOfDay z) := by
        rw [hm11]; exact dbm_11 _
      have h1 : z + 1 = makeDay (yearOfDay z + 1) 0 1 := by
        rw [makeDay_eq _ _ _ (by omega) (by omega), dbm_0, dayFromYear_succ]
        omega
      have hf := makeDay_fields (yearOfDay z + 1) 0 1 (by omega) (by omega) (by omega)
        (by rw [ml_0]; omega)
      rw [h1]
      unfold yearOfDay at hf ⊢
      rw [hf.1, hf.2.1, hf.2.2]
      norm_num

theorem dims_pos (m y : Int) : 1 ≤ daysInMonthSpec m y ∧ daysInMonthSpec m y ≤ 31 := by
  have hL := leapDays_cases y
  unfold daysInMonthSpec
  split_ifs <;> omega

theorem prev_next (c : Int × Int × Int) (h1 : 1 ≤ c.2.1) (h2 : c.2.1 ≤ 12)
    (h3 : 1 ≤ c.2.2) (h4 : c.2.2 ≤ daysInMonthSpec c.2.1 c.1) :
    prevCalendarDay (nextCalendarDay c) = c := by
  obtain ⟨y, m, d⟩ := c
  simp only at h1 h2 h3 h4
  have hp := dims_pos m y
  unfold nextCalendarDay
  simp only
  rcases lt_or_le d (daysInMonthSpec m y) with hlt | hge
  · rw [if_pos hlt]
    unfold prevCalendarDay
    simp only
    rw [if_pos (by omega)]
    norm_num
  · have hd : d = daysInMonthSpec m y := by omega
    rw [if_neg (by omega)]
    rcases lt_or_le m 12 with hm | hm
    · rw [if_pos hm]
      unfold prevCalendarDay
      simp only
      rw [if_neg (by omega), if_pos (by omega)]
      have he : m + 1 - 1 = m := by ring
      rw [he]
      simp only [Prod.mk.injEq]
      refine ⟨trivial, trivial, by omega⟩
    · have hm12 : m = 12 := by omega
      rw [if_neg (by omega)]
      unfold prevCalendarDay
      simp only
      rw [if_neg (by omega), if_neg (by omega)]
      have hd31 : daysInMonthSpec m y = 31 := by
        rw [hm12]; rfl
      simp only [Prod.mk.injEq]
      refine ⟨by omega, by omega, by omega⟩

def validCivil (c : Int × Int × Int) : Prop :=
  1 ≤ c.2.1 ∧ c.2.1 ≤ 12 ∧ 1 ≤ c.2.2 ∧ c.2.2 ≤ daysInMonthSpec c.2.1 c.1

theorem civilOfDay_valid (z : Int) : validCivil (civilOfDay z) := by
  have hr := fields_range z
  have hdims := dims_eq_mlen (monthOfDay z) (yearOfDay z) hr.1 hr.2.1
  unfold validCivil civilOfDay
  simp only
  refine ⟨by omega, by omega, by omega, ?_⟩
  rw [hdims]
  exact hr.2.2.2

theorem prev_day (z : Int) : civilOfDay (z - 1) = prevCalendarDay (civilOfDay z) := by
  have h := next_day (z - 1)
  have hv := civilOfDay_valid (z - 1)
  have hz : (z - 1) + 1 = z := by ring
  rw [hz] at h
  rw [h]
  exact (prev_next (civilOfDay (z - 1)) hv.1 hv.2.1 hv.2.2.1 hv.2.2.2).symm

theorem civil_iterate_next (z : Int) (n : Nat) :
    civilOfDay (z + n) = nextCalendarDay^[n] (civilOfDay z) := by
  induction n with
  | zero => simp
  | succ k ih =>
    have harg : z + ((k : Int) + 1) = (z + k) + 1 := by ring
    push_cast
    rw [harg, next_day]
    push_cast at ih
    rw [ih, ← Function.iterate_succ_apply' nextCalendarDay k]

theorem civil_iterate_prev (z : Int) (n : Nat) :
    civilOfDay (z - n) = prevCalendarDay^[n] (civilOfDay z) := by
  induction n with
  | zero => simp
  | succ k ih =>
    have harg : z - ((k : Int) + 1) = (z - k) - 1 := by ring
    push_cast
    rw [harg, prev_day]
    push_cast at ih
    rw [ih, ← Function.iterate_succ_apply' prevCalendarDay k]

theorem civil_advance (z k : Int) :
    civilOfDay (z + k) = advanceCalendarDays (civilOfDay z) k := by
  unfold advanceCalendarDays
  rcases le_or_lt 0 k with h | h
  · rw [if_pos h]
    have hk : z + k = z + (k.toNat : Int) := by omega
    rw [hk]
    exact civil_iterate_next z k.toNat
  · rw [if_neg (by omega)]
    have hk : z + k = z - ((-k).toNat : Int) := by omega
    rw [hk]
    exact civil_iterate_prev z (-k).toNat

/- the source functions (numeric ones) -/

def jsCeilDiv (a b : Int) : Int := -(-a / b)

def addDays (date days : Int) : Int :=
  86400000 * makeDay (getFullYear date) (getMonth date) (getDate date + days) +
    timeWithinDay date

def getDayOfYear (date : Int) : Int :=
  (date - mkLocalDate (getFullYear date) 0 0) / 86400000

def getWeekNumber (date : Int) : Int :=
  jsCeilDiv (getDayOfYear date + getDay (mkLocalDate (getFullYear date) 0 1) + 1) 7

def getDaysInMonth (month year : Int) : Int := getDate (mkLocalDate year month 0)

theorem makeDay_add (y m d k : Int) : makeDay y m (d + k) = makeDay y m d + k := by
  unfold makeDay; ring

theorem addDays_eq (t k : Int) : addDays t k = t + 86400000 * k := by
  unfold addDays getFullYear getMonth getDate
  rw [makeDay_add, day_roundtrip (dayOfTv t)]
  have := tv_decomp t
  omega

/- specification-side notions -/

def twoDigitYearAdjust (y : Int) : Int := if 0 ≤ y ∧ y ≤ 99 then 1900 + y else y

def weekdayOfJan1 (y : Int) : Int := (dayFromYear y + 4) % 7

def ordinalDaySpec (y m d : Int) : Int := daysBeforeMonth (m - 1) (leapDays y) + d

theorem mkLocalDate_adj (y m d : Int) :
    mkLocalDate y m d = 86400000 * makeDay (twoDigitYearAdjust y) m d := rfl

theorem makeDay_jan (y d : Int) : makeDay y 0 d = dayFromYear y + d - 1 := by
  unfold makeDay
  norm_num [dbm_0]

theorem getDayOfYear_eq (t : Int) :
    getDayOfYear t = dayOfTv t - dayFromYear (twoDigitYearAdjust (getFullYear t)) + 1 := by
  unfold getDayOfYear
  rw [mkLocalDate_adj, makeDay_jan]
  have := tv_decomp t
  unfold dayOfTv timeWithinDay at *
  omega

theorem dwy_of_day (z : Int) :
    z - dayFromYear (yearOfDay z) + 1 =
      daysBeforeMonth (monthOfDay z) (leapDays (yearOfDay z)) + dateOfDay z := by
  have hs := yearFromDay_spec z
  rw [dayFromYear_succ] at hs
  have hL := leapDays_cases (yearFromDay z)
  have hd := dwy_decomp (z - dayFromYear (yearFromDay z)) (leapDays (yearFromDay z)) hL
    (by omega) (by omega)
  unfold yearOfDay monthOfDay dateOfDay
  omega

theorem getDayOfYear_noquirk (t : Int) (hy : getFullYear t < 0 ∨ 100 ≤ getFullYear t) :
    getDayOfYear t = ordinalDaySpec (getFullYear t) (getMonth t + 1) (getDate t) ∧
    1 ≤ getDayOfYear t ∧
    getDayOfYear t ≤ 365 + leapDays (getFullYear t) := by
  have hadj : twoDigitYearAdjust (getFullYear t) = getFullYear t := by
    unfold twoDigitYearAdjust; rw [if_neg (by omega)]
  have h1 := getDayOfYear_eq t
  rw [hadj] at h1
  have h2 := dwy_of_day (dayOfTv t)
  have hs := yearFromDay_spec (dayOfTv t)
  rw [dayFromYear_succ] at hs
  unfold getFullYear getMonth getDate at *
  unfold ordinalDaySpec
  have hm : monthOfDay (dayOfTv t) + 1 - 1 = monthOfDay (dayOfTv t) := by ring
  rw [hm]
  unfold yearOfDay at *
  omega

theorem getDay_mkLocalDate (y m d : Int) :
    getDay (mkLocalDate y m d) = (makeDay (twoDigitYearAdjust y) m d + 4) % 7 := by
  rw [mkLocalDate_adj]
  unfold getDay dayOfTv
  omega

theorem getWeekNumber_eq (t : Int) :
    getWeekNumber t =
      jsCeilDiv (getDayOfYear t + weekdayOfJan1 (twoDigitYearAdjust (getFullYear t)) + 1) 7 := by
  unfold getWeekNumber
  rw [getDay_mkLocalDate, makeDay_jan]
  unfold weekdayOfJan1
  have he : dayFromYear (twoDigitYearAdjust (getFullYear t)) + 1 - 1 =
      dayFromYear (twoDigitYearAdjust (getFullYear t)) := by ring
  rw [he]

theorem getDaysInMonth_noquirk (m y : Int) (hm1 : 1 ≤ m) (hm2 : m ≤ 12)
    (hy : y < 0 ∨ 100 ≤ y) :
    getDaysInMonth m y = daysInMonthSpec m y := by
  have hadj : twoDigitYearAdjust y = y := by
    unfold twoDigitYearAdjust; rw [if_neg (by omega)]
  unfold getDaysInMonth
  rw [mkLocalDate_adj, hadj]
  have hL := leapDays_cases y
  rcases lt_or_le m 12 with hm | hm
  · have hdiv : m / 12 = 0 := by omega
    have hmod : m % 12 = m := by omega
    have hstep := dbm_step (m - 1) (leapDays y) (by omega) (by omega)
    have hm1' : m - 1 + 1 = m := by ring
    rw [hm1'] at hstep
    have hkey : makeDay y m 0 = makeDay y (m - 1) (monthLength (m - 1) (leapDays y)) := by
      unfold makeDay
      rw [hdiv, hmod]
      have hd2 : (m - 1) / 12 = 0 := by omega
      have hm2' : (m - 1) % 12 = m - 1 := by omega
      rw [hd2, hm2']
      simp only [add_zero]
      omega
    rw [hkey]
    have hml := dbm_bounds (m - 1) (leapDays y) (by omega) (by omega) (by omega)
    have hmlpos : 1 ≤ monthLength (m - 1) (leapDays y) := by
      have := dims_eq_mlen (m - 1) y (by omega) (by omega)
      have := dims_pos m y
      rw [hm1'] at *
      omega
    have hf := makeDay_fields y (m - 1) (monthLength (m - 1) (leapDays y)) (by omega)
      (by omega) hmlpos (by omega)
    unfold getDate
    have hday : dayOfTv (86400000 * makeDay y (m - 1) (monthLength (m - 1) (leapDays y))) =
        makeDay y (m - 1) (monthLength (m - 1) (leapDays y)) := by
      unfold dayOfTv; omega
    rw [hday, hf.2.2]
    have := dims_eq_mlen (m - 1) y (by omega) (by omega)
    rw [hm1'] at this
    omega
  · have hm12 : m = 12 := by omega
    subst hm12
    have hkey : makeDay y 12 0 = makeDay y 11 31 := by
      unfold makeDay
      norm_num [dbm_0, dbm_11]
      rw [dayFromYear_succ]
      omega
    rw [hkey]
    have hf := makeDay_fields y 11 31 (by omega) (by omega) (by omega) (by rw [ml_11])
    unfold getDate
    have hday : dayOfTv (86400000 * makeDay y 11 31) = makeDay y 11 31 := by
      unfold dayOfTv; omega
    rw [hday, hf.2.2]
    rfl


/- string primitives (JS string operations, modelled on lists of characters) -/

def listStartsWith : List Char → List Char → Bool
  | _, [] => true
  | [], _ :: _ => false
  | c :: s, p :: ps => c == p && listStartsWith s ps

def replaceFirst : List Char → List Char → List Char → List Char
  | [], pat, rep => if listStartsWith [] pat then rep else []
  | c :: s, pat, rep =>
      if listStartsWith (c :: s) pat then rep ++ (c :: s).drop pat.length
      else c :: replaceFirst s pat rep

def splitOnChar (sep : Char) : List Char → List (List Char)
  | [] => [[]]
  | c :: rest =>
      let r := splitOnChar sep rest
      if c == sep then [] :: r
      else (c :: r.headI) :: r.tail

def countOcc : List Char → List Char → Nat
  | [], pat => if listStartsWith [] pat then 1 else 0
  | c :: s, pat => (if listStartsWith (c :: s) pat then 1 else 0) + countOcc s pat

def countDisjointAux : Nat → List Char → List Char → Nat
  | 0, _, _ => 0
  | fuel + 1, s, pat =>
    if pat = [] then 0
    else
      match s with
      | [] => 0
      | c :: s' =>
          if listStartsWith (c :: s') pat then
            1 + countDisjointAux fuel ((c :: s').drop pat.length) pat
          else countDisjointAux fuel s' pat

def countDisjoint (s pat : List Char) : Nat := countDisjointAux s.length s pat

def isJsSpace (c : Char) : Bool :=
  c == ' ' || c == '\t' || c == '\n' || c == '\r' || c == '\x0b' || c == '\x0c'

def digitVal (c : Char) : Int := (c.toNat : Int) - 48

def parseIntJS (s : List Char) : Option Int :=
  let s1 := s.dropWhile isJsSpace
  let sign : Int := if s1.head? = some '-' then -1 else 1
  let s2 := if s1.head? = some '-' ∨ s1.head? = some '+' then s1.tail else s1
  let ds := s2.takeWhile Char.isDigit
  if ds.isEmpty then none
  else some (sign * ds.foldl (fun a c => 10 * a + digitVal c) 0)

def natToStrAux : Nat → Nat → List Char
  | 0, n => [Nat.digitChar n]
  | fuel + 1, n =>
    if n < 10 then [Nat.digitChar n]
    else natToStrAux fuel (n / 10) ++ [Nat.digitChar (n % 10)]

def natToStr (n : Nat) : List Char := natToStrAux n n

def intToStr (n : Int) : List Char :=
  if n < 0 then '-' :: natToStr (-n).toNat else natToStr n.toNat

def pad2 (s : List Char) : List Char := List.replicate (2 - s.length) '0' ++ s

/- the source functions (string ones) -/

def formatDate (date : Int) (format : List Char) : List Char :=
  replaceFirst
    (replaceFirst
      (replaceFirst
        (replaceFirst
          (replaceFirst
            (replaceFirst format "YYYY".data (intToStr (getFullYear date)))
            "MM".data (pad2 (intToStr (getMonth date + 1))))
          "DD".data (pad2 (intToStr (getDate date))))
        "HH".data (pad2 (intToStr (getHours date))))
      "mm".data (pad2 (intToStr (getMinutes date))))
    "ss".data (pad2 (intToStr (getSeconds date)))

def parseDate (dateString : List Char) : Option Int :=
  let parts := (splitOnChar '-' dateString).map parseIntJS
  match parts[0]?, parts[1]?, parts[2]? with
  | some (some y), some (some m), some (some d) => some (mkLocalDate y (m - 1) d)
  | _, _, _ => none

def timeAgo (now date : Int) : List Char :=
  let seconds := (now - date) / 1000
  let i1 := seconds / 31536000
  if 1 ≤ i1 then intToStr i1 ++ " years ago".data else
  let i2 := seconds / 2592000
  if 1 ≤ i2 then intToStr i2 ++ " months ago".data else
  let i3 := seconds / 86400
  if i3 = 1 then "Yesterday".data else
  if 1 < i3 then intToStr i3 ++ " days ago".data else
  let i4 := seconds / 3600
  if 1 ≤ i4 then intToStr i4 ++ " hours ago".data else
  let i5 := seconds / 60
  if 1 ≤ i5 then intToStr i5 ++ " minutes ago".data else
  intToStr seconds ++ " seconds ago".data

/- startsWith and occurrence-count lemmas -/

theorem sw_nil (s : List Char) : listStartsWith s [] = true := by
  cases s <;> rfl

theorem sw_head {c p : Char} {s ps : List Char}
    (h : listStartsWith (c :: s) (p :: ps) = true) :
    c = p ∧ listStartsWith s ps = true := by
  unfold listStartsWith at h
  simp only [Bool.and_eq_true, beq_iff_eq] at h
  exact h

theorem sw_cons {c p : Char} {s ps : List Char} (hc : c = p)
    (h : listStartsWith s ps = true) : listStartsWith (c :: s) (p :: ps) = true := by
  unfold listStartsWith
  simp only [Bool.and_eq_true, beq_iff_eq]
  exact ⟨hc, h⟩

theorem sw_iff_exists (s pat : List Char) :
    listStartsWith s pat = true ↔ ∃ t, s = pat ++ t := by
  induction pat generalizing s with
  | nil => simp [sw_nil]
  | cons p ps ih =>
    cases s with
    | nil =>
      simp only [listStartsWith]
      constructor
      · intro h; exact absurd h (by simp)
      · rintro ⟨t, ht⟩; simp at ht
    | cons c s' =>
      constructor
      · intro h
        obtain ⟨hc, hs⟩ := sw_head h
        obtain ⟨t, ht⟩ := (ih s').mp hs
        exact ⟨t, by rw [hc, ht]; rfl⟩
      · rintro ⟨t, ht⟩
        simp only [List.cons_append, List.cons.injEq] at ht
        exact sw_cons ht.1 ((ih s').mpr ⟨t, ht.2⟩)

theorem sw_append (s r pat : List Char) (h : listStartsWith s pat = true) :
    listStartsWith (s ++ r) pat = true := by
  rw [sw_iff_exists] at h ⊢
  obtain ⟨t, ht⟩ := h
  exact ⟨t ++ r, by rw [ht]; simp⟩

theorem sw_start (pat t : List Char) : listStartsWith (pat ++ t) pat = true := by
  rw [sw_iff_exists]; exact ⟨t, rfl⟩

-- a pattern whose characters avoid x cannot start inside x
theorem sw_through (a x b pat : List Char) (hx : x ≠ [])
    (hdisj : ∀ c ∈ pat, c ∉ x) (h : listStartsWith (a ++ x ++ b) pat = true) :
    listStartsWith a pat = true ∧ pat.length ≤ a.length := by
  induction a generalizing pat with
  | nil =>
    cases pat with
    | nil => exact ⟨rfl, by simp⟩
    | cons p ps =>
      cases x with
      | nil => exact absurd rfl hx
      | cons xc x' =>
        simp only [List.nil_append, List.cons_append] at h
        obtain ⟨hc, -⟩ := sw_head h
        exact absurd (hc ▸ List.mem_cons_self xc x') (hdisj p (List.mem_cons_self p ps))
  | cons c a' ih =>
    cases pat with
    | nil => exact ⟨sw_nil _, by simp⟩
    | cons p ps =>
      simp only [List.cons_append] at h
      obtain ⟨hc, hs⟩ := sw_head h
      have hsub : ∀ ch ∈ ps, ch ∉ x := fun ch hm => hdisj ch (List.mem_cons_of_mem p hm)
      obtain ⟨h1, h2⟩ := ih ps hsub hs
      refine ⟨sw_cons hc h1, ?_⟩
      simp only [List.length_cons]
      omega

theorem countOcc_cons (c : Char) (s pat : List Char) :
    countOcc (c :: s) pat =
      (if listStartsWith (c :: s) pat = true then 1 else 0) + countOcc s pat := by
  rfl

theorem countOcc_le_cons (c : Char) (s pat : List Char) :
    countOcc s pat ≤ countOcc (c :: s) pat := by
  rw [countOcc_cons]; omega

theorem countOcc_le_append (r b pat : List Char) :
    countOcc b pat ≤ countOcc (r ++ b) pat := by
  induction r with
  | nil => simp
  | cons c r' ih =>
    calc countOcc b pat ≤ countOcc (r' ++ b) pat := ih
    _ ≤ countOcc (c :: (r' ++ b)) pat := countOcc_le_cons _ _ _

theorem countDisjointAux_irrel (f1 : Nat) : ∀ (f2 : Nat) (s pat : List Char),
    s.length ≤ f1 → s.length ≤ f2 → countDisjointAux f1 s pat = countDisjointAux f2 s pat := by
  induction f1 with
  | zero =>
    intro f2 s pat h1 h2
    have hs : s = [] := List.length_eq_zero.mp (by omega)
    subst hs
    cases f2 with
    | zero => rfl
    | succ g =>
      unfold countDisjointAux
      split <;> rfl
  | succ f ih =>
    intro f2 s pat h1 h2
    cases f2 with
    | zero =>
      have hs : s = [] := List.length_eq_zero.mp (by omega)
      subst hs
      unfold countDisjointAux
      split <;> rfl
    | succ g =>
      unfold countDisjointAux
      by_cases hp : pat = []
      · rw [if_pos hp, if_pos hp]
      · rw [if_neg hp, if_neg hp]
        cases s with
        | nil => rfl
        | cons c s' =>
          simp only
          have hlen : 0 < pat.length := List.length_pos.mpr hp
          by_cases hsw : listStartsWith (c :: s') pat = true
          · rw [if_pos hsw, if_pos hsw]
            have hd : ((c :: s').drop pat.length).length ≤ f := by
              simp only [List.length_drop, List.length_cons]
              simp only [List.length_cons] at h1
              omega
            have hd2 : ((c :: s').drop pat.length).length ≤ g := by
              simp only [List.length_drop, List.length_cons]
              simp only [List.length_cons] at h2
              omega
            rw [ih g _ pat hd hd2]
          · rw [if_neg hsw, if_neg hsw]
            have hd : s'.length ≤ f := by
              simp only [List.length_cons] at h1; omega
            have hd2 : s'.length ≤ g := by
              simp only [List.length_cons] at h2; omega
            rw [ih g s' pat hd hd2]

theorem cd_nil_pat (s : List Char) : countDisjoint s [] = 0 := by
  cases s <;> rfl

theorem cd_nil (pat : List Char) : countDisjoint [] pat = 0 := rfl

theorem cd_cons (c : Char) (s' pat : List Char) (hp : pat ≠ []) :
    countDisjoint (c :: s') pat =
      if listStartsWith (c :: s') pat = true then
        1 + countDisjoint ((c :: s').drop pat.length) pat
      else countDisjoint s' pat := by
  have hlen : 0 < pat.length := List.length_pos.mpr hp
  have hshow : countDisjoint (c :: s') pat =
      if pat = [] then 0
      else if listStartsWith (c :: s') pat = true then
        1 + countDisjointAux s'.length ((c :: s').drop pat.length) pat
      else countDisjointAux s'.length s' pat := rfl
  rw [hshow, if_neg hp]
  by_cases hsw : listStartsWith (c :: s') pat = true
  · rw [if_pos hsw, if_pos hsw]
    have h1 : ((c :: s').drop pat.length).length ≤ s'.length := by
      simp only [List.length_drop, List.length_cons]
      omega
    rw [countDisjointAux_irrel s'.length ((c :: s').drop pat.length).length _ pat h1
      (Nat.le_refl _)]
    rfl
  · rw [if_neg hsw, if_neg hsw]
    rfl

theorem countOcc_nil_pos (pat : List Char) (hp : pat ≠ []) : countOcc [] pat = 0 := by
  cases pat with
  | nil => exact absurd rfl hp
  | cons p ps => rfl

theorem countOcc_skip (x b : List Char) (p : Char) (pt : List Char) (hp : p ∉ x) :
    countOcc (x ++ b) (p :: pt) = countOcc b (p :: pt) := by
  induction x with
  | nil => rfl
  | cons c x' ih =>
    have hp' : p ∉ x' := fun hm => hp (List.mem_cons_of_mem c hm)
    have hc : ¬(c = p) := fun he => hp (he ▸ List.mem_cons_self c x')
    simp only [List.cons_append, countOcc_cons]
    have hind : listStartsWith (c :: (x' ++ b)) (p :: pt) = false := by
      cases hsw : listStartsWith (c :: (x' ++ b)) (p :: pt) with
      | false => rfl
      | true => exact absurd (sw_head hsw).1 hc
    rw [hind]
    simp [ih hp']

theorem cd_skip (x b : List Char) (p : Char) (pt : List Char) (hp : p ∉ x) :
    countDisjoint (x ++ b) (p :: pt) = countDisjoint b (p :: pt) := by
  induction x with
  | nil => rfl
  | cons c x' ih =>
    have hp' : p ∉ x' := fun hm => hp (List.mem_cons_of_mem c hm)
    have hc : ¬(c = p) := fun he => hp (he ▸ List.mem_cons_self c x')
    have hind : listStartsWith (c :: (x' ++ b)) (p :: pt) = false := by
      cases hsw : listStartsWith (c :: (x' ++ b)) (p :: pt) with
      | false => rfl
      | true => exact absurd (sw_head hsw).1 hc
    rw [List.cons_append, cd_cons _ _ _ (by simp), hind]
    simp [ih hp']

theorem cd_le_countOcc (s pat : List Char) (h : 1 ≤ countDisjoint s pat) :
    1 ≤ countOcc s pat := by
  induction s with
  | nil => rw [cd_nil] at h; omega
  | cons c s' ih =>
    have hp : pat ≠ [] := by
      intro he; rw [he, cd_nil_pat] at h; omega
    rw [cd_cons _ _ _ hp] at h
    rw [countOcc_cons]
    by_cases hsw : listStartsWith (c :: s') pat = true
    · rw [if_pos hsw]; omega
    · rw [if_neg hsw] at h ⊢
      exact Nat.le_trans (ih h) (by omega)

theorem rf_decomp (s pat rep : List Char) :
    (countOcc s pat = 0 ∧ replaceFirst s pat rep = s) ∨
    ∃ a b, s = a ++ pat ++ b ∧ replaceFirst s pat rep = a ++ rep ++ b := by
  induction s with
  | nil =>
    cases pat with
    | nil =>
      right
      exact ⟨[], [], rfl, by simp [replaceFirst, sw_nil]⟩
    | cons p ps =>
      left
      exact ⟨rfl, rfl⟩
  | cons c s' ih =>
    by_cases hsw : listStartsWith (c :: s') pat = true
    · right
      obtain ⟨t, ht⟩ := (sw_iff_exists _ _).mp hsw
      refine ⟨[], t, by simpa using ht, ?_⟩
      unfold replaceFirst
      rw [if_pos hsw, ht]
      simp [List.drop_left]
    · rcases ih with ⟨hco, heq⟩ | ⟨a, b, hs, heq⟩
      · left
        constructor
        · rw [countOcc_cons, if_neg hsw, hco]
        · unfold replaceFirst
          rw [if_neg hsw, heq]
      · right
        refine ⟨c :: a, b, by rw [hs]; rfl, ?_⟩
        unfold replaceFirst
        rw [if_neg hsw, heq]
        rfl

theorem countOcc_split (a x b pat : List Char) (hx : x ≠ []) (hpat : pat ≠ [])
    (hdisj : ∀ c ∈ pat, c ∉ x) :
    countOcc (a ++ (x ++ b)) pat = countOcc a pat + countOcc b pat := by
  induction a with
  | nil =>
    cases pat with
    | nil => exact absurd rfl hpat
    | cons p ps =>
      rw [List.nil_append, countOcc_skip x b p ps (hdisj p (List.mem_cons_self p ps)),
        countOcc_nil_pos _ hpat]
      omega
  | cons c a' ih =>
    rw [List.cons_append, countOcc_cons, countOcc_cons c a' pat]
    have hind : listStartsWith (c :: (a' ++ (x ++ b))) pat = listStartsWith (c :: a') pat := by
      cases h1 : listStartsWith (c :: a') pat with
      | true =>
        have := sw_append (c :: a') (x ++ b) pat h1
        simpa using this
      | false =>
        cases h2 : listStartsWith (c :: (a' ++ (x ++ b))) pat with
        | false => rfl
        | true =>
          have h3 : listStartsWith ((c :: a') ++ x ++ b) pat = true := by simpa using h2
          have := (sw_through (c :: a') x b pat hx hdisj h3).1
          rw [this] at h1
          exact absurd h1 (by simp)
    rw [hind, ih]
    omega

theorem drop_append_of_le (l1 l2 : List Char) (n : Nat) (h : n ≤ l1.length) :
    (l1 ++ l2).drop n = l1.drop n ++ l2 := by
  induction l1 generalizing n with
  | nil =>
    simp at h
    subst h
    simp
  | cons c l1' ih =>
    cases n with
    | zero => simp
    | succ k =>
      simp only [List.cons_append, List.drop_succ_cons]
      exact ih k (by simpa using h)

theorem cd_split_aux : ∀ (n : Nat) (a : List Char), a.length ≤ n →
    ∀ (x b pat : List Char), x ≠ [] → pat ≠ [] → (∀ c ∈ pat, c ∉ x) →
    countDisjoint (a ++ (x ++ b)) pat = countDisjoint a pat + countDisjoint b pat := by
  intro n
  induction n with
  | zero =>
    intro a ha x b pat hx hpat hdisj
    have : a = [] := List.length_eq_zero.mp (by omega)
    subst this
    cases pat with
    | nil => exact absurd rfl hpat
    | cons p ps =>
      rw [List.nil_append, cd_skip x b p ps (hdisj p (List.mem_cons_self p ps)), cd_nil]
      omega
  | succ m ih =>
    intro a ha x b pat hx hpat hdisj
    cases a with
    | nil =>
      cases pat with
      | nil => exact absurd rfl hpat
      | cons p ps =>
        rw [List.nil_append, cd_skip x b p ps (hdisj p (List.mem_cons_self p ps)), cd_nil]
        omega
    | cons c a' =>
      have hlen : 0 < pat.length := List.length_pos.mpr hpat
      rw [List.cons_append]
      by_cases hsw : listStartsWith (c :: a') pat = true
      · have hswb : listStartsWith (c :: (a' ++ (x ++ b))) pat = true := by
          have := sw_append (c :: a') (x ++ b) pat hsw
          rw [List.cons_append] at this
          exact this
        have hle : pat.length ≤ (c :: a').length := by
          obtain ⟨t, ht⟩ := (sw_iff_exists _ _).mp hsw
          rw [ht]
          simp
        rw [cd_cons c (a' ++ (x ++ b)) pat hpat, if_pos hswb,
          cd_cons c a' pat hpat, if_pos hsw]
        have hdrop : (c :: (a' ++ (x ++ b))).drop pat.length =
            ((c :: a').drop pat.length) ++ (x ++ b) := by
          have := drop_append_of_le (c :: a') (x ++ b) pat.length hle
          rw [List.cons_append] at this
          exact this
        rw [hdrop]
        have hlen2 : ((c :: a').drop pat.length).length ≤ m := by
          simp only [List.length_drop, List.length_cons]
          simp only [List.length_cons] at ha
          omega
        rw [ih _ hlen2 x b pat hx hpat hdisj]
        omega
      · have hswb : listStartsWith (c :: (a' ++ (x ++ b))) pat = false := by
          cases h2 : listStartsWith (c :: (a' ++ (x ++ b))) pat with
          | false => rfl
          | true =>
            have h3 : listStartsWith ((c :: a') ++ x ++ b) pat = true := by simpa using h2
            have := (sw_through (c :: a') x b pat hx hdisj h3).1
            exact absurd this hsw
        rw [cd_cons c (a' ++ (x ++ b)) pat hpat, hswb, if_neg (by simp),
          cd_cons c a' pat hpat, if_neg hsw]
        exact ih a' (by simp only [List.length_cons] at ha; omega) x b pat hx hpat hdisj

theorem cd_split (a x b pat : List Char) (hx : x ≠ []) (hpat : pat ≠ [])
    (hdisj : ∀ c ∈ pat, c ∉ x) :
    countDisjoint (a ++ (x ++ b)) pat = countDisjoint a pat + countDisjoint b pat :=
  cd_split_aux a.length a (Nat.le_refl _) x b pat hx hpat hdisj

/- replacing one pattern cannot change occurrences of a character-disjoint pattern -/
theorem rf_other_countOcc (s pat pat' rep' : List Char) (hpat : pat ≠ [])
    (hpat' : pat' ≠ []) (hrep' : rep' ≠ [])
    (h1 : ∀ c ∈ pat, c ∉ pat') (h2 : ∀ c ∈ pat, c ∉ rep') :
    countOcc (replaceFirst s pat' rep') pat = countOcc s pat := by
  rcases rf_decomp s pat' rep' with ⟨-, heq⟩ | ⟨a, b, hs, heq⟩
  · rw [heq]
  · rw [heq, hs]
    have e1 : a ++ pat' ++ b = a ++ (pat' ++ b) := by simp
    have e2 : a ++ rep' ++ b = a ++ (rep' ++ b) := by simp
    rw [e1, e2, countOcc_split a pat' b pat hpat' hpat h1,
      countOcc_split a rep' b pat hrep' hpat h2]

theorem rf_other_cd (s pat pat' rep' : List Char) (hpat : pat ≠ [])
    (hpat' : pat' ≠ []) (hrep' : rep' ≠ [])
    (h1 : ∀ c ∈ pat, c ∉ pat') (h2 : ∀ c ∈ pat, c ∉ rep') :
    countDisjoint (replaceFirst s pat' rep') pat = countDisjoint s pat := by
  rcases rf_decomp s pat' rep' with ⟨-, heq⟩ | ⟨a, b, hs, heq⟩
  · rw [heq]
  · rw [heq, hs]
    have e1 : a ++ pat' ++ b = a ++ (pat' ++ b) := by simp
    have e2 : a ++ rep' ++ b = a ++ (rep' ++ b) := by simp
    rw [e1, e2, cd_split a pat' b pat hpat' hpat h1, cd_split a rep' b pat hrep' hpat h2]

/- replacing the first occurrence leaves later disjoint occurrences in place -/
theorem rf_same_keeps (s pat rep : List Char) (h : 2 ≤ countDisjoint s pat) :
    1 ≤ countOcc (replaceFirst s pat rep) pat := by
  induction s with
  | nil => rw [cd_nil] at h; omega
  | cons c s' ih =>
    have hp : pat ≠ [] := by
      intro he; rw [he, cd_nil_pat] at h; omega
    by_cases hsw : listStartsWith (c :: s') pat = true
    · unfold replaceFirst
      rw [if_pos hsw]
      rw [cd_cons _ _ _ hp, if_pos hsw] at h
      have hcd : 1 ≤ countDisjoint ((c :: s').drop pat.length) pat := by omega
      have hco := cd_le_countOcc _ _ hcd
      exact Nat.le_trans hco (countOcc_le_append _ _ _)
    · unfold replaceFirst
      rw [if_neg hsw]
      rw [cd_cons _ _ _ hp, if_neg hsw] at h
      exact Nat.le_trans (ih h) (countOcc_le_cons _ _ _)

/- computation lemmas for replaceFirst -/
theorem rf_of_sw (s pat rep : List Char) (h : listStartsWith s pat = true) :
    replaceFirst s pat rep = rep ++ s.drop pat.length := by
  cases s with
  | nil =>
    unfold replaceFirst
    rw [if_pos h]
    simp
  | cons c s' =>
    unfold replaceFirst
    rw [if_pos h]

theorem rf_skip (a b rep : List Char) (p : Char) (pt : List Char) (hp : p ∉ a) :
    replaceFirst (a ++ b) (p :: pt) rep = a ++ replaceFirst b (p :: pt) rep := by
  induction a with
  | nil => rfl
  | cons c a' ih =>
    have hp' : p ∉ a' := fun hm => hp (List.mem_cons_of_mem c hm)
    have hc : ¬(c = p) := fun he => hp (he ▸ List.mem_cons_self c a')
    have hind : listStartsWith (c :: (a' ++ b)) (p :: pt) = false := by
      cases hsw : listStartsWith (c :: (a' ++ b)) (p :: pt) with
      | false => rfl
      | true => exact absurd (sw_head hsw).1 hc
    rw [List.cons_append]
    unfold replaceFirst
    rw [hind]
    simp only [Bool.false_eq_true, if_false, List.cons.injEq, true_and]
    rw [ih hp']
    cases b <;> rfl

theorem countOcc_sw_pos (s pat : List Char) (h : listStartsWith s pat = true) :
    1 ≤ countOcc s pat := by
  cases s with
  | nil =>
    unfold countOcc
    rw [if_pos h]
  | cons c s' =>
    rw [countOcc_cons, if_pos h]
    omega

theorem rf_nooc (s pat rep : List Char) (h : countOcc s pat = 0) :
    replaceFirst s pat rep = s := by
  rcases rf_decomp s pat rep with ⟨-, heq⟩ | ⟨a, b, hs, -⟩
  · exact heq
  · exfalso
    rw [hs] at h
    have h2 : 1 ≤ countOcc (pat ++ b) pat := countOcc_sw_pos _ _ (sw_start pat b)
    have h3 : 1 ≤ countOcc (a ++ (pat ++ b)) pat :=
      Nat.le_trans h2 (countOcc_le_append _ _ _)
    have e1 : a ++ pat ++ b = a ++ (pat ++ b) := by simp
    rw [e1] at h
    omega

/- decimal rendering and parsing lemmas -/

def decodeDigits (ds : List Char) : Int := ds.foldl (fun a c => 10 * a + digitVal c) 0

theorem digitChar_isDigit : ∀ d : Nat, d < 10 → (Nat.digitChar d).isDigit = true := by decide

theorem digitVal_digitChar : ∀ d : Nat, d < 10 → digitVal (Nat.digitChar d) = d := by decide

theorem natToStrAux_irrel (f1 : Nat) : ∀ (f2 n : Nat), n ≤ f1 → n ≤ f2 →
    natToStrAux f1 n = natToStrAux f2 n := by
  induction f1 with
  | zero =>
    intro f2 n h1 h2
    have hn : n = 0 := by omega
    subst hn
    cases f2 with
    | zero => rfl
    | succ g =>
      unfold natToStrAux
      rw [if_pos (by omega)]
  | succ f ih =>
    intro f2 n h1 h2
    cases f2 with
    | zero =>
      have hn : n = 0 := by omega
      subst hn
      unfold natToStrAux
      rw [if_pos (by omega)]
    | succ g =>
      unfold natToStrAux
      by_cases hn : n < 10
      · rw [if_pos hn, if_pos hn]
      · rw [if_neg hn, if_neg hn]
        rw [ih g (n / 10) (by omega) (by omega)]

theorem natToStr_eq (n : Nat) : natToStr n =
    if n < 10 then [Nat.digitChar n] else natToStr (n / 10) ++ [Nat.digitChar (n % 10)] := by
  cases n with
  | zero => rfl
  | succ m =>
    have hshow : natToStr (m + 1) =
        if m + 1 < 10 then [Nat.digitChar (m + 1)]
        else natToStrAux m ((m + 1) / 10) ++ [Nat.digitChar ((m + 1) % 10)] := rfl
    rw [hshow]
    by_cases hn : m + 1 < 10
    · rw [if_pos hn, if_pos hn]
    · rw [if_neg hn, if_neg hn]
      have haux : natToStrAux m ((m + 1) / 10) = natToStr ((m + 1) / 10) :=
        natToStrAux_irrel m ((m + 1) / 10) ((m + 1) / 10) (by omega) (Nat.le_refl _)
      rw [haux]

theorem natToStr_ne_nil (n : Nat) : natToStr n ≠ [] := by
  rw [natToStr_eq]
  split_ifs <;> simp

theorem natToStr_digits (n : Nat) : ∀ c ∈ natToStr n, c.isDigit = true := by
  induction n using Nat.strong_induction_on with
  | _ n ih =>
    rw [natToStr_eq]
    split_ifs with h
    · intro c hc
      simp only [List.mem_singleton] at hc
      subst hc
      exact digitChar_isDigit n h
    · intro c hc
      rw [List.mem_append] at hc
      rcases hc with hc | hc
      · exact ih (n / 10) (by omega) c hc
      · simp only [List.mem_singleton] at hc
        subst hc
        exact digitChar_isDigit (n % 10) (by omega)

theorem foldl_digits_append (a b : List Char) (acc : Int) :
    (a ++ b).foldl (fun a c => 10 * a + digitVal c) acc =
      b.foldl (fun a c => 10 * a + digitVal c) (a.foldl (fun a c => 10 * a + digitVal c) acc) :=
  List.foldl_append _ _ _ _

theorem decode_natToStr (n : Nat) : decodeDigits (natToStr n) = (n : Int) := by
  induction n using Nat.strong_induction_on with
  | _ n ih =>
    rw [natToStr_eq]
    split_ifs with h
    · unfold decodeDigits
      simp only [List.foldl_cons, List.foldl_nil]
      rw [digitVal_digitChar n h]
      omega
    · unfold decodeDigits at ih ⊢
      rw [foldl_digits_append]
      rw [ih (n / 10) (by omega)]
      simp only [List.foldl_cons, List.foldl_nil]
      rw [digitVal_digitChar (n % 10) (by omega)]
      omega

theorem natToStr_len1 (n : Nat) (h : n < 10) : (natToStr n).length = 1 := by
  rw [natToStr_eq, if_pos h]
  rfl

theorem natToStr_len_succ (n : Nat) (h : 10 ≤ n) :
    (natToStr n).length = (natToStr (n / 10)).length + 1 := by
  rw [natToStr_eq, if_neg (by omega)]
  simp

theorem natToStr_len4 (n : Nat) (h1 : 1000 ≤ n) (h2 : n ≤ 9999) :
    (natToStr n).length = 4 := by
  rw [natToStr_len_succ n (by omega), natToStr_len_succ (n / 10) (by omega),
    natToStr_len_succ (n / 10 / 10) (by omega), natToStr_len1 (n / 10 / 10 / 10) (by omega)]

theorem natToStr_len_le2 (n : Nat) (h : n < 100) : (natToStr n).length ≤ 2 := by
  rcases lt_or_le n 10 with h1 | h1
  · rw [natToStr_len1 n h1]; omega
  · rw [natToStr_len_succ n h1, natToStr_len1 (n / 10) (by omega)]

theorem natToStr_len_pos (n : Nat) : 1 ≤ (natToStr n).length := by
  rcases hne : natToStr n with _ | ⟨c, r⟩
  · exact absurd hne (natToStr_ne_nil n)
  · simp

theorem natToStr_len_le3 (n : Nat) (h : n < 1000) : (natToStr n).length ≤ 3 := by
  rcases lt_or_le n 10 with h1 | h1
  · rw [natToStr_len1 n h1]; omega
  · rw [natToStr_len_succ n h1]
    have := natToStr_len_le2 (n / 10) (by omega)
    omega

theorem natToStr_len_ge2 (n : Nat) (h : 10 ≤ n) : 2 ≤ (natToStr n).length := by
  rw [natToStr_len_succ n h]
  have := natToStr_len_pos (n / 10)
  omega

theorem natToStr_len_ge5 (n : Nat) (h : 10000 ≤ n) : 5 ≤ (natToStr n).length := by
  rw [natToStr_len_succ n (by omega), natToStr_len_succ (n / 10) (by omega),
    natToStr_len_succ (n / 10 / 10) (by omega)]
  have := natToStr_len_ge2 (n / 10 / 10 / 10) (by omega)
  omega

theorem intToStr_nonneg (n : Int) (h : 0 ≤ n) : intToStr n = natToStr n.toNat := by
  unfold intToStr
  rw [if_neg (by omega)]

theorem intToStr_chars (n : Int) : ∀ c ∈ intToStr n, c.isDigit = true ∨ c = '-' := by
  unfold intToStr
  split_ifs with h
  · intro c hc
    rcases List.mem_cons.mp hc with hc | hc
    · right; exact hc
    · left; exact natToStr_digits _ c hc
  · intro c hc
    left; exact natToStr_digits _ c hc

theorem pad2_chars (s : List Char) : ∀ c ∈ pad2 s, c = '0' ∨ c ∈ s := by
  unfold pad2
  intro c hc
  rw [List.mem_append] at hc
  rcases hc with hc | hc
  · left; exact List.eq_of_mem_replicate hc
  · right; exact hc

theorem pad2_length (s : List Char) (h : s.length ≤ 2) : (pad2 s).length = 2 := by
  unfold pad2
  simp only [List.length_append, List.length_replicate]
  omega

theorem decode_pad2 (ds : List Char) : decodeDigits (pad2 ds) = decodeDigits ds := by
  unfold pad2 decodeDigits
  rw [foldl_digits_append]
  have : ∀ k : Nat, (List.replicate k '0').foldl (fun a c => 10 * a + digitVal c) 0 = 0 := by
    intro k
    induction k with
    | zero => rfl
    | succ m ih =>
      rw [List.replicate_succ]
      simp only [List.foldl_cons]
      have hz : (10 : Int) * 0 + digitVal '0' = 0 := by decide
      rw [hz, ih]
  rw [this]

theorem digit_not_space (c : Char) (h : c.isDigit = true) : isJsSpace c = false := by
  cases hsp : isJsSpace c with
  | false => rfl
  | true =>
    unfold isJsSpace at hsp
    simp only [Bool.or_eq_true, beq_iff_eq] at hsp
    rcases hsp with ((((h1 | h1) | h1) | h1) | h1) | h1 <;> subst h1 <;>
      exact absurd h (by decide)

theorem digit_ne (c c' : Char) (h : c.isDigit = true) (h' : c'.isDigit = false) : c ≠ c' := by
  intro he
  subst he
  rw [h] at h'
  cases h'

theorem dropWhile_digits (ds : List Char) (hd : ∀ c ∈ ds, c.isDigit = true) :
    ds.dropWhile isJsSpace = ds := by
  cases ds with
  | nil => rfl
  | cons c t =>
    rw [List.dropWhile_cons]
    rw [digit_not_space c (hd c (List.mem_cons_self c t))]
    simp

theorem takeWhile_digits (ds : List Char) (hd : ∀ c ∈ ds, c.isDigit = true) :
    ds.takeWhile Char.isDigit = ds := by
  induction ds with
  | nil => rfl
  | cons c t ih =>
    rw [List.takeWhile_cons]
    rw [hd c (List.mem_cons_self c t)]
    simp only [if_true]
    rw [ih (fun x hx => hd x (List.mem_cons_of_mem c hx))]

theorem parseIntJS_digits (ds : List Char) (hne : ds ≠ [])
    (hd : ∀ c ∈ ds, c.isDigit = true) :
    parseIntJS ds = some (decodeDigits ds) := by
  unfold parseIntJS
  simp only
  rw [dropWhile_digits ds hd]
  have hdash : ¬(ds.head? = some '-') := by
    cases ds with
    | nil => simp
    | cons c t =>
      simp only [List.head?_cons, Option.some.injEq]
      exact digit_ne c '-' (hd c (List.mem_cons_self c t)) (by decide)
  have hplus : ¬(ds.head? = some '+') := by
    cases ds with
    | nil => simp
    | cons c t =>
      simp only [List.head?_cons, Option.some.injEq]
      exact digit_ne c '+' (hd c (List.mem_cons_self c t)) (by decide)
  rw [if_neg hdash]
  rw [if_neg (show ¬(ds.head? = some '-' ∨ ds.head? = some '+') from by tauto)]
  rw [takeWhile_digits ds hd]
  rw [if_neg (show ¬(ds.isEmpty = true) from by simp [List.isEmpty_iff, hne])]
  unfold decodeDigits
  simp

/- splitOnChar lemmas -/

theorem splitOnChar_ne_nil (sep : Char) (s : List Char) : splitOnChar sep s ≠ [] := by
  cases s with
  | nil => simp [splitOnChar]
  | cons c r =>
    unfold splitOnChar
    simp only
    split_ifs <;> simp

theorem splitOnChar_no_sep (sep : Char) (a : List Char) (h : sep ∉ a) :
    splitOnChar sep a = [a] := by
  induction a with
  | nil => rfl
  | cons c a' ih =>
    have hc : ¬(c == sep) = true := by
      simp only [beq_iff_eq]
      intro he
      exact h (he ▸ List.mem_cons_self c a')
    have h' : sep ∉ a' := fun hm => h (List.mem_cons_of_mem c hm)
    unfold splitOnChar
    simp only
    rw [if_neg hc, ih h']
    rfl

theorem splitOnChar_cons (sep c : Char) (rest : List Char) :
    splitOnChar sep (c :: rest) =
      if (c == sep) = true then [] :: splitOnChar sep rest
      else (c :: (splitOnChar sep rest).headI) :: (splitOnChar sep rest).tail := rfl

theorem splitOnChar_append (sep : Char) (a b : List Char) (h : sep ∉ a) :
    splitOnChar sep (a ++ sep :: b) = a :: splitOnChar sep b := by
  induction a with
  | nil =>
    rw [List.nil_append, splitOnChar_cons, if_pos (by simp)]
  | cons c a' ih =>
    have hc : ¬(c == sep) = true := by
      simp only [beq_iff_eq]
      intro he
      exact h (he ▸ List.mem_cons_self c a')
    have h' : sep ∉ a' := fun hm => h (List.mem_cons_of_mem c hm)
    rw [List.cons_append, splitOnChar_cons, if_neg hc, ih h']
    rfl

/- character-class helpers -/

theorem not_mem_of_digit_dash (c : Char) (s : List Char)
    (hs : ∀ x ∈ s, x.isDigit = true ∨ x = '-') (hc : c.isDigit = false) (hd : c ≠ '-') :
    c ∉ s := by
  intro hm
  rcases hs c hm with h | h
  · rw [h] at hc; cases hc
  · exact hd h

theorem countOcc_zero (s : List Char) (p : Char) (pt : List Char) (hp : p ∉ s) :
    countOcc s (p :: pt) = 0 := by
  have := countOcc_skip s [] p pt hp
  simpa using this

theorem intToStr_ne_nil (n : Int) : intToStr n ≠ [] := by
  unfold intToStr
  split_ifs
  · simp
  · exact natToStr_ne_nil _

theorem pad2_ne_nil (s : List Char) (h : s ≠ []) : pad2 s ≠ [] := by
  unfold pad2
  simp [h]

theorem pad2_intToStr_digits (v : Int) (h : 0 ≤ v) :
    ∀ c ∈ pad2 (intToStr v), c.isDigit = true := by
  intro c hc
  rcases pad2_chars _ c hc with hc0 | hcm
  · subst hc0; decide
  · rw [intToStr_nonneg v h] at hcm
    exact natToStr_digits _ c hcm

theorem numstr_of_digits (s : List Char) (h : ∀ c ∈ s, c.isDigit = true) :
    ∀ x ∈ s, x.isDigit = true ∨ x = '-' := fun x hx => Or.inl (h x hx)

theorem decode_natToStr_toNat (v : Int) (h : 0 ≤ v) :
    decodeDigits (natToStr v.toNat) = v := by
  rw [decode_natToStr]
  omega

theorem parseIntJS_intToStr (v : Int) : parseIntJS (intToStr v) = some v := by
  rcases lt_or_le v 0 with hv | hv
  · have hshape : intToStr v = '-' :: natToStr (-v).toNat := by
      unfold intToStr
      rw [if_pos hv]
    rw [hshape]
    unfold parseIntJS
    simp only
    have hdrop : ('-' :: natToStr (-v).toNat).dropWhile isJsSpace =
        '-' :: natToStr (-v).toNat := by
      rw [List.dropWhile_cons]
      rw [show isJsSpace '-' = false from by decide]
      simp
    rw [hdrop]
    simp only [List.head?_cons, Option.some.injEq, List.tail_cons]
    rw [if_pos trivial, if_pos (Or.inl trivial)]
    rw [takeWhile_digits _ (natToStr_digits _)]
    rw [if_neg (show ¬((natToStr (-v).toNat).isEmpty = true) from by
      simp [List.isEmpty_iff, natToStr_ne_nil])]
    have hd := decode_natToStr_toNat (-v) (by omega)
    unfold decodeDigits at hd
    rw [hd]
    norm_num
  · rw [intToStr_nonneg v hv]
    rw [parseIntJS_digits _ (natToStr_ne_nil _) (natToStr_digits _)]
    rw [decode_natToStr_toNat v hv]

theorem parseIntJS_pad2_digits (v : Int) (h : 0 ≤ v) :
    parseIntJS (pad2 (intToStr v)) = some v := by
  rw [parseIntJS_digits _ (pad2_ne_nil _ (intToStr_ne_nil _)) (pad2_intToStr_digits v h)]
  rw [decode_pad2, intToStr_nonneg v h, decode_natToStr_toNat v h]

theorem rf_cons_ne (c : Char) (b rep : List Char) (p : Char) (pt : List Char)
    (hne : ¬(p = c)) :
    replaceFirst (c :: b) (p :: pt) rep = c :: replaceFirst b (p :: pt) rep := by
  have hnm : p ∉ [c] := by simp [hne]
  have := rf_skip [c] b rep p pt hnm
  simpa using this

theorem time_fields_bounds (t : Int) :
    0 ≤ getMonth t ∧ getMonth t ≤ 11 ∧ 1 ≤ getDate t ∧ getDate t ≤ 31 ∧
    0 ≤ getHours t ∧ getHours t ≤ 23 ∧ 0 ≤ getMinutes t ∧ getMinutes t ≤ 59 ∧
    0 ≤ getSeconds t ∧ getSeconds t ≤ 59 := by
  have hr := fields_range (dayOfTv t)
  have hL := leapDays_cases (yearOfDay (dayOfTv t))
  have hml : monthLength (monthOfDay (dayOfTv t)) (leapDays (yearOfDay (dayOfTv t))) ≤ 31 := by
    unfold monthLength
    split_ifs <;> omega
  unfold getMonth getDate getHours getMinutes getSeconds
  refine ⟨hr.1, hr.2.1, hr.2.2.1, by omega, ?_, ?_, ?_, ?_, ?_, ?_⟩ <;> omega

theorem formatDate_ymd (tv : Int) :
    formatDate tv "YYYY-MM-DD".data =
      intToStr (getFullYear tv) ++
        '-' :: (pad2 (intToStr (getMonth tv + 1)) ++ '-' :: pad2 (intToStr (getDate tv))) := by
  have hb := time_fields_bounds tv
  have hY : ∀ x ∈ intToStr (getFullYear tv), x.isDigit = true ∨ x = '-' := intToStr_chars _
  have hM : ∀ x ∈ pad2 (intToStr (getMonth tv + 1)), x.isDigit = true :=
    pad2_intToStr_digits _ (by omega)
  have hD : ∀ x ∈ pad2 (intToStr (getDate tv)), x.isDigit = true :=
    pad2_intToStr_digits _ (by omega)
  have hMY : 'M' ∉ intToStr (getFullYear tv) :=
    not_mem_of_digit_dash _ _ hY (by decide) (by decide)
  have hDY : 'D' ∉ intToStr (getFullYear tv) :=
    not_mem_of_digit_dash _ _ hY (by decide) (by decide)
  have hDM : 'D' ∉ pad2 (intToStr (getMonth tv + 1)) :=
    not_mem_of_digit_dash _ _ (numstr_of_digits _ hM) (by decide) (by decide)
  unfold formatDate
  rw [rf_of_sw _ _ _ (by decide : listStartsWith "YYYY-MM-DD".data "YYYY".data = true)]
  rw [show "YYYY-MM-DD".data.drop "YYYY".data.length = "-MM-DD".data from by decide]
  rw [show "MM".data = 'M' :: "M".data from rfl]
  rw [rf_skip _ _ _ 'M' "M".data hMY]
  rw [show "-MM-DD".data = '-' :: "MM-DD".data from rfl]
  rw [rf_cons_ne '-' _ _ 'M' _ (by decide)]
  rw [rf_of_sw _ _ _ (by decide : listStartsWith "MM-DD".data ('M' :: "M".data) = true)]
  rw [show "MM-DD".data.drop ('M' :: "M".data).length = "-DD".data from by decide]
  rw [show "DD".data = 'D' :: "D".data from rfl]
  rw [rf_skip _ _ _ 'D' "D".data hDY]
  rw [rf_cons_ne '-' _ _ 'D' _ (by decide)]
  rw [rf_skip _ _ _ 'D' "D".data hDM]
  rw [show "-DD".data = '-' :: "DD".data from rfl]
  rw [rf_cons_ne '-' _ _ 'D' _ (by decide)]
  rw [rf_of_sw _ _ _ (by decide : listStartsWith "DD".data ('D' :: "D".data) = true)]
  rw [show "DD".data.drop ('D' :: "D".data).length = ([] : List Char) from by decide]
  rw [List.append_nil]
  have hchars : ∀ x ∈ intToStr (getFullYear tv) ++
      '-' :: (pad2 (intToStr (getMonth tv + 1)) ++ '-' :: pad2 (intToStr (getDate tv))),
      x.isDigit = true ∨ x = '-' := by
    intro x hx
    simp only [List.mem_append, List.mem_cons] at hx
    rcases hx with hx | hx | hx
    · exact hY x hx
    · right; exact hx
    · rcases hx with hx | hx | hx
      · left; exact hM x hx
      · right; exact hx
      · left; exact hD x hx
  have hH : 'H' ∉ intToStr (getFullYear tv) ++
      '-' :: (pad2 (intToStr (getMonth tv + 1)) ++ '-' :: pad2 (intToStr (getDate tv))) :=
    not_mem_of_digit_dash _ _ hchars (by decide) (by decide)
  have hm : 'm' ∉ intToStr (getFullYear tv) ++
      '-' :: (pad2 (intToStr (getMonth tv + 1)) ++ '-' :: pad2 (intToStr (getDate tv))) :=
    not_mem_of_digit_dash _ _ hchars (by decide) (by decide)
  have hs : 's' ∉ intToStr (getFullYear tv) ++
      '-' :: (pad2 (intToStr (getMonth tv + 1)) ++ '-' :: pad2 (intToStr (getDate tv))) :=
    not_mem_of_digit_dash _ _ hchars (by decide) (by decide)
  rw [show "HH".data = 'H' :: "H".data from rfl,
    rf_nooc _ _ _ (countOcc_zero _ 'H' _ hH)]
  rw [show "mm".data = 'm' :: "m".data from rfl,
    rf_nooc _ _ _ (countOcc_zero _ 'm' _ hm)]
  rw [show "ss".data = 's' :: "s".data from rfl,
    rf_nooc _ _ _ (countOcc_zero _ 's' _ hs)]

theorem formatDate_congr (t1 t2 : Int) (fmt : List Char)
    (h1 : getFullYear t1 = getFullYear t2) (h2 : getMonth t1 = getMonth t2)
    (h3 : getDate t1 = getDate t2) (h4 : getHours t1 = getHours t2)
    (h5 : getMinutes t1 = getMinutes t2) (h6 : getSeconds t1 = getSeconds t2) :
    formatDate t1 fmt = formatDate t2 fmt := by
  unfold formatDate
  rw [h1, h2, h3, h4, h5, h6]

theorem tv_day_fields (z : Int) :
    getFullYear (86400000 * z) = yearOfDay z ∧ getMonth (86400000 * z) = monthOfDay z ∧
    getDate (86400000 * z) = dateOfDay z ∧ getHours (86400000 * z) = 0 ∧
    getMinutes (86400000 * z) = 0 ∧ getSeconds (86400000 * z) = 0 := by
  have hz : dayOfTv (86400000 * z) = z := by unfold dayOfTv; omega
  unfold getFullYear getMonth getDate getHours getMinutes getSeconds
  rw [hz]
  refine ⟨rfl, rfl, rfl, ?_, ?_, ?_⟩ <;> omega

theorem mkLocalDate_fields (y m d : Int) (hy : y < 0 ∨ 100 ≤ y) (hm1 : 1 ≤ m)
    (hm2 : m ≤ 12) (hd1 : 1 ≤ d) (hd2 : d ≤ daysInMonthSpec m y) :
    mkLocalDate y (m - 1) d = 86400000 * makeDay y (m - 1) d ∧
    getFullYear (mkLocalDate y (m - 1) d) = y ∧
    getMonth (mkLocalDate y (m - 1) d) = m - 1 ∧
    getDate (mkLocalDate y (m - 1) d) = d ∧
    getHours (mkLocalDate y (m - 1) d) = 0 ∧
    getMinutes (mkLocalDate y (m - 1) d) = 0 ∧
    getSeconds (mkLocalDate y (m - 1) d) = 0 := by
  have hadj : twoDigitYearAdjust y = y := by
    unfold twoDigitYearAdjust; rw [if_neg (by omega)]
  have heq : mkLocalDate y (m - 1) d = 86400000 * makeDay y (m - 1) d := by
    rw [mkLocalDate_adj, hadj]
  have hdim := dims_eq_mlen (m - 1) y (by omega) (by omega)
  rw [show m - 1 + 1 = m from by ring] at hdim
  have hf := makeDay_fields y (m - 1) d (by omega) (by omega) hd1 (by omega)
  have htf := tv_day_fields (makeDay y (m - 1) d)
  unfold yearOfDay at hf
  refine ⟨heq, ?_, ?_, ?_, ?_, ?_, ?_⟩ <;> rw [heq]
  · rw [htf.1]; exact hf.1
  · rw [htf.2.1]; exact hf.2.1
  · rw [htf.2.2.1]; exact hf.2.2
  · exact htf.2.2.2.1
  · exact htf.2.2.2.2.1
  · exact htf.2.2.2.2.2

theorem parseDate_three (p0 p1 p2 : List Char) (h0 : '-' ∉ p0) (h1 : '-' ∉ p1)
    (h2 : '-' ∉ p2) (v0 v1 v2 : Int) (e0 : parseIntJS p0 = some v0)
    (e1 : parseIntJS p1 = some v1) (e2 : parseIntJS p2 = some v2) :
    parseDate (p0 ++ '-' :: (p1 ++ '-' :: p2)) = some (mkLocalDate v0 (v1 - 1) v2) := by
  unfold parseDate
  rw [splitOnChar_append '-' p0 _ h0, splitOnChar_append '-' p1 p2 h1,
    splitOnChar_no_sep '-' p2 h2]
  simp [e0, e1, e2]

theorem parseDate_none_iff (s : List Char) :
    parseDate s = none ↔
      ¬∃ a b c t, (splitOnChar '-' s).map parseIntJS = some a :: some b :: some c :: t := by
  unfold parseDate
  rcases hp : (splitOnChar '-' s).map parseIntJS with _ | ⟨a, _ | ⟨b, _ | ⟨c, t⟩⟩⟩
  · simp
  · cases a <;> simp
  · cases a <;> cases b <;> simp
  · cases a <;> cases b <;> cases c <;> simp

def timeAgoSpec (s : Int) : List Char :=
  if 31536000 ≤ s then intToStr (s / 31536000) ++ " years ago".data
  else if 2592000 ≤ s then intToStr (s / 2592000) ++ " months ago".data
  else if 86400 ≤ s ∧ s < 172800 then "Yesterday".data
  else if 172800 ≤ s then intToStr (s / 86400) ++ " days ago".data
  else if 3600 ≤ s then intToStr (s / 3600) ++ " hours ago".data
  else if 60 ≤ s then intToStr (s / 60) ++ " minutes ago".data
  else intToStr s ++ " seconds ago".data

theorem timeAgo_eq_spec (now t : Int) (h : t ≤ now) :
    timeAgo now t = timeAgoSpec ((now - t) / 1000) := by
  simp only [timeAgo, timeAgoSpec]
  set s := (now - t) / 1000 with hs_def
  have hs : 0 ≤ s := by omega
  rcases le_or_lt 31536000 s with h1 | h1
  · rw [if_pos (show 1 ≤ s / 31536000 by omega), if_pos h1]
  · rw [if_neg (show ¬1 ≤ s / 31536000 by omega), if_neg (show ¬31536000 ≤ s by omega)]
    rcases le_or_lt 2592000 s with h2 | h2
    · rw [if_pos (show 1 ≤ s / 2592000 by omega), if_pos h2]
    · rw [if_neg (show ¬1 ≤ s / 2592000 by omega), if_neg (show ¬2592000 ≤ s by omega)]
      rcases le_or_lt 86400 s with h3 | h3
      · rcases lt_or_le s 172800 with h4 | h4
        · rw [if_pos (show s / 86400 = 1 by omega),
            if_pos (show 86400 ≤ s ∧ s < 172800 from ⟨h3, h4⟩)]
        · rw [if_neg (show ¬s / 86400 = 1 by omega), if_pos (show 1 < s / 86400 by omega),
            if_neg (show ¬(86400 ≤ s ∧ s < 172800) by omega), if_pos h4]
      · rw [if_neg (show ¬s / 86400 = 1 by omega), if_neg (show ¬1 < s / 86400 by omega),
          if_neg (show ¬(86400 ≤ s ∧ s < 172800) by omega),
          if_neg (show ¬172800 ≤ s by omega)]
        rcases le_or_lt 3600 s with h5 | h5
        · rw [if_pos (show 1 ≤ s / 3600 by omega), if_pos h5]
        · rw [if_neg (show ¬1 ≤ s / 3600 by omega), if_neg (show ¬3600 ≤ s by omega)]
          rcases le_or_lt 60 s with h6 | h6
          · rw [if_pos (show 1 ≤ s / 60 by omega), if_pos h6]
          · rw [if_neg (show ¬1 ≤ s / 60 by omega), if_neg (show ¬60 ≤ s by omega)]

/- C9 machinery: tokens never interfere with the other tokens' replacement strings,
   because every replacement string consists of decimal digits (possibly with a
   leading minus sign) while every token consists of letters -/

theorem letter_not_repY (t : Int) (c : Char) (hc : c.isDigit = false) (hd : c ≠ '-') :
    c ∉ intToStr (getFullYear t) :=
  not_mem_of_digit_dash _ _ (intToStr_chars _) hc hd

theorem letter_not_pad2 (v : Int) (hv : 0 ≤ v) (c : Char) (hc : c.isDigit = false)
    (hd : c ≠ '-') : c ∉ pad2 (intToStr v) :=
  not_mem_of_digit_dash _ _ (numstr_of_digits _ (pad2_intToStr_digits _ hv)) hc hd

theorem fd_keeps_Y (t : Int) (fmt : List Char) (h : 2 ≤ countDisjoint fmt "YYYY".data) :
    1 ≤ countOcc (formatDate t fmt) "YYYY".data := by
  have hb := time_fields_bounds t
  have hball : ∀ c ∈ ("YYYY".data : List Char), c = 'Y' := by decide
  have nM : ∀ c ∈ ("YYYY".data : List Char), c ∉ pad2 (intToStr (getMonth t + 1)) := by
    intro c hc; rw [hball c hc]; exact letter_not_pad2 _ (by omega) _ (by decide) (by decide)
  have nD : ∀ c ∈ ("YYYY".data : List Char), c ∉ pad2 (intToStr (getDate t)) := by
    intro c hc; rw [hball c hc]; exact letter_not_pad2 _ (by omega) _ (by decide) (by decide)
  have nH : ∀ c ∈ ("YYYY".data : List Char), c ∉ pad2 (intToStr (getHours t)) := by
    intro c hc; rw [hball c hc]; exact letter_not_pad2 _ (by omega) _ (by decide) (by decide)
  have nMi : ∀ c ∈ ("YYYY".data : List Char), c ∉ pad2 (intToStr (getMinutes t)) := by
    intro c hc; rw [hball c hc]; exact letter_not_pad2 _ (by omega) _ (by decide) (by decide)
  have nS : ∀ c ∈ ("YYYY".data : List Char), c ∉ pad2 (intToStr (getSeconds t)) := by
    intro c hc; rw [hball c hc]; exact letter_not_pad2 _ (by omega) _ (by decide) (by decide)
  unfold formatDate
  rw [rf_other_countOcc _ "YYYY".data "ss".data _ (by decide) (by decide)
      (pad2_ne_nil _ (intToStr_ne_nil _)) (by decide) nS,
    rf_other_countOcc _ "YYYY".data "mm".data _ (by decide) (by decide)
      (pad2_ne_nil _ (intToStr_ne_nil _)) (by decide) nMi,
    rf_other_countOcc _ "YYYY".data "HH".data _ (by decide) (by decide)
      (pad2_ne_nil _ (intToStr_ne_nil _)) (by decide) nH,
    rf_other_countOcc _ "YYYY".data "DD".data _ (by decide) (by decide)
      (pad2_ne_nil _ (intToStr_ne_nil _)) (by decide) nD,
    rf_other_countOcc _ "YYYY".data "MM".data _ (by decide) (by decide)
      (pad2_ne_nil _ (intToStr_ne_nil _)) (by decide) nM]
  exact rf_same_keeps _ _ _ h

theorem fd_keeps_M (t : Int) (fmt : List Char) (h : 2 ≤ countDisjoint fmt "MM".data) :
    1 ≤ countOcc (formatDate t fmt) "MM".data := by
  have hb := time_fields_bounds t
  have hball : ∀ c ∈ ("MM".data : List Char), c = 'M' := by decide
  have nY : ∀ c ∈ ("MM".data : List Char), c ∉ intToStr (getFullYear t) := by
    intro c hc; rw [hball c hc]; exact letter_not_repY _ _ (by decide) (by decide)
  have nD : ∀ c ∈ ("MM".data : List Char), c ∉ pad2 (intToStr (getDate t)) := by
    intro c hc; rw [hball c hc]; exact letter_not_pad2 _ (by omega) _ (by decide) (by decide)
  have nH : ∀ c ∈ ("MM".data : List Char), c ∉ pad2 (intToStr (getHours t)) := by
    intro c hc; rw [hball c hc]; exact letter_not_pad2 _ (by omega) _ (by decide) (by decide)
  have nMi : ∀ c ∈ ("MM".data : List Char), c ∉ pad2 (intToStr (getMinutes t)) := by
    intro c hc; rw [hball c hc]; exact letter_not_pad2 _ (by omega) _ (by decide) (by decide)
  have nS : ∀ c ∈ ("MM".data : List Char), c ∉ pad2 (intToStr (getSeconds t)) := by
    intro c hc; rw [hball c hc]; exact letter_not_pad2 _ (by omega) _ (by decide) (by decide)
  unfold formatDate
  rw [rf_other_countOcc _ "MM".data "ss".data _ (by decide) (by decide)
      (pad2_ne_nil _ (intToStr_ne_nil _)) (by decide) nS,
    rf_other_countOcc _ "MM".data "mm".data _ (by decide) (by decide)
      (pad2_ne_nil _ (intToStr_ne_nil _)) (by decide) nMi,
    rf_other_countOcc _ "MM".data "HH".data _ (by decide) (by decide)
      (pad2_ne_nil _ (intToStr_ne_nil _)) (by decide) nH,
    rf_other_countOcc _ "MM".data "DD".data _ (by decide) (by decide)
      (pad2_ne_nil _ (intToStr_ne_nil _)) (by decide) nD]
  apply rf_same_keeps
  rw [rf_other_cd _ "MM".data "YYYY".data _ (by decide) (by decide)
    (intToStr_ne_nil _) (by decide) nY]
  exact h

theorem fd_keeps_D (t : Int) (fmt : List Char) (h : 2 ≤ countDisjoint fmt "DD".data) :
    1 ≤ countOcc (formatDate t fmt) "DD".data := by
  have hb := time_fields_bounds t
  have hball : ∀ c ∈ ("DD".data : List Char), c = 'D' := by decide
  have nY : ∀ c ∈ ("DD".data : List Char), c ∉ intToStr (getFullYear t) := by
    intro c hc; rw [hball c hc]; exact letter_not_repY _ _ (by decide) (by decide)
  have nM : ∀ c ∈ ("DD".data : List Char), c ∉ pad2 (intToStr (getMonth t + 1)) := by
    intro c hc; rw [hball c hc]; exact letter_not_pad2 _ (by omega) _ (by decide) (by decide)
  have nH : ∀ c ∈ ("DD".data : List Char), c ∉ pad2 (intToStr (getHours t)) := by
    intro c hc; rw [hball c hc]; exact letter_not_pad2 _ (by omega) _ (by decide) (by decide)
  have nMi : ∀ c ∈ ("DD".data : List Char), c ∉ pad2 (intToStr (getMinutes t)) := by
    intro c hc; rw [hball c hc]; exact letter_not_pad2 _ (by omega) _ (by decide) (by decide)
  have nS : ∀ c ∈ ("DD".data : List Char), c ∉ pad2 (intToStr (getSeconds t)) := by
    intro c hc; rw [hball c hc]; exact letter_not_pad2 _ (by omega) _ (by decide) (by decide)
  unfold formatDate
  rw [rf_other_countOcc _ "DD".data "ss".data _ (by decide) (by decide)
      (pad2_ne_nil _ (intToStr_ne_nil _)) (by decide) nS,
    rf_other_countOcc _ "DD".data "mm".data _ (by decide) (by decide)
      (pad2_ne_nil _ (intToStr_ne_nil _)) (by decide) nMi,
    rf_other_countOcc _ "DD".data "HH".data _ (by decide) (by decide)
      (pad2_ne_nil _ (intToStr_ne_nil _)) (by decide) nH]
  apply rf_same_keeps
  rw [rf_other_cd _ "DD".data "MM".data _ (by decide) (by decide)
      (pad2_ne_nil _ (intToStr_ne_nil _)) (by decide) nM,
    rf_other_cd _ "DD".data "YYYY".data _ (by decide) (by decide)
      (intToStr_ne_nil _) (by decide) nY]
  exact h

theorem fd_keeps_H (t : Int) (fmt : List Char) (h : 2 ≤ countDisjoint fmt "HH".data) :
    1 ≤ countOcc (formatDate t fmt) "HH".data := by
  have hb := time_fields_bounds t
  have hball : ∀ c ∈ ("HH".data : List Char), c = 'H' := by decide
  have nY : ∀ c ∈ ("HH".data : List Char), c ∉ intToStr (getFullYear t) := by
    intro c hc; rw [hball c hc]; exact letter_not_repY _ _ (by decide) (by decide)
  have nM : ∀ c ∈ ("HH".data : List Char), c ∉ pad2 (intToStr (getMonth t + 1)) := by
    intro c hc; rw [hball c hc]; exact letter_not_pad2 _ (by omega) _ (by decide) (by decide)
  have nD : ∀ c ∈ ("HH".data : List Char), c ∉ pad2 (intToStr (getDate t)) := by
    intro c hc; rw [hball c hc]; exact letter_not_pad2 _ (by omega) _ (by decide) (by decide)
  have nMi : ∀ c ∈ ("HH".data : List Char), c ∉ pad2 (intToStr (getMinutes t)) := by
    intro c hc; rw [hball c hc]; exact letter_not_pad2 _ (by omega) _ (by decide) (by decide)
  have nS : ∀ c ∈ ("HH".data : List Char), c ∉ pad2 (intToStr (getSeconds t)) := by
    intro c hc; rw [hball c hc]; exact letter_not_pad2 _ (by omega) _ (by decide) (by decide)
  unfold formatDate
  rw [rf_other_countOcc _ "HH".data "ss".data _ (by decide) (by decide)
      (pad2_ne_nil _ (intToStr_ne_nil _)) (by decide) nS,
    rf_other_countOcc _ "HH".data "mm".data _ (by decide) (by decide)
      (pad2_ne_nil _ (intToStr_ne_nil _)) (by decide) nMi]
  apply rf_same_keeps
  rw [rf_other_cd _ "HH".data "DD".data _ (by decide) (by decide)
      (pad2_ne_nil _ (intToStr_ne_nil _)) (by decide) nD,
    rf_other_cd _ "HH".data "MM".data _ (by decide) (by decide)
      (pad2_ne_nil _ (intToStr_ne_nil _)) (by decide) nM,
    rf_other_cd _ "HH".data "YYYY".data _ (by decide) (by decide)
      (intToStr_ne_nil _) (by decide) nY]
  exact h

theorem fd_keeps_mi (t : Int) (fmt : List Char) (h : 2 ≤ countDisjoint fmt "mm".data) :
    1 ≤ countOcc (formatDate t fmt) "mm".data := by
  have hb := time_fields_bounds t
  have hball : ∀ c ∈ ("mm".data : List Char), c = 'm' := by decide
  have nY : ∀ c ∈ ("mm".data : List Char), c ∉ intToStr (getFullYear t) := by
    intro c hc; rw [hball c hc]; exact letter_not_repY _ _ (by decide) (by decide)
  have nM : ∀ c ∈ ("mm".data : List Char), c ∉ pad2 (intToStr (getMonth t + 1)) := by
    intro c hc; rw [hball c hc]; exact letter_not_pad2 _ (by omega) _ (by decide) (by decide)
  have nD : ∀ c ∈ ("mm".data : List Char), c ∉ pad2 (intToStr (getDate t)) := by
    intro c hc; rw [hball c hc]; exact letter_not_pad2 _ (by omega) _ (by decide) (by decide)
  have nH : ∀ c ∈ ("mm".data : List Char), c ∉ pad2 (intToStr (getHours t)) := by
    intro c hc; rw [hball c hc]; exact letter_not_pad2 _ (by omega) _ (by decide) (by decide)
  have nS : ∀ c ∈ ("mm".data : List Char), c ∉ pad2 (intToStr (getSeconds t)) := by
    intro c hc; rw [hball c hc]; exact letter_not_pad2 _ (by omega) _ (by decide) (by decide)
  unfold formatDate
  rw [rf_other_countOcc _ "mm".data "ss".data _ (by decide) (by decide)
    (pad2_ne_nil _ (intToStr_ne_nil _)) (by decide) nS]
  apply rf_same_keeps
  rw [rf_other_cd _ "mm".data "HH".data _ (by decide) (by decide)
      (pad2_ne_nil _ (intToStr_ne_nil _)) (by decide) nH,
    rf_other_cd _ "mm".data "DD".data _ (by decide) (by decide)
      (pad2_ne_nil _ (intToStr_ne_nil _)) (by decide) nD,
    rf_other_cd _ "mm".data "MM".data _ (by decide) (by decide)
      (pad2_ne_nil _ (intToStr_ne_nil _)) (by decide) nM,
    rf_other_cd _ "mm".data "YYYY".data _ (by decide) (by decide)
      (intToStr_ne_nil _) (by decide) nY]
  exact h

theorem fd_keeps_s (t : Int) (fmt : List Char) (h : 2 ≤ countDisjoint fmt "ss".data) :
    1 ≤ countOcc (formatDate t fmt) "ss".data := by
  have hb := time_fields_bounds t
  have hball : ∀ c ∈ ("ss".data : List Char), c = 's' := by decide
  have nY : ∀ c ∈ ("ss".data : List Char), c ∉ intToStr (getFullYear t) := by
    intro c hc; rw [hball c hc]; exact letter_not_repY _ _ (by decide) (by decide)
  have nM : ∀ c ∈ ("ss".data : List Char), c ∉ pad2 (intToStr (getMonth t + 1)) := by
    intro c hc; rw [hball c hc]; exact letter_not_pad2 _ (by omega) _ (by decide) (by decide)
  have nD : ∀ c ∈ ("ss".data : List Char), c ∉ pad2 (intToStr (getDate t)) := by
    intro c hc; rw [hball c hc]; exact letter_not_pad2 _ (by omega) _ (by decide) (by decide)
  have nH : ∀ c ∈ ("ss".data : List Char), c ∉ pad2 (intToStr (getHours t)) := by
    intro c hc; rw [hball c hc]; exact letter_not_pad2 _ (by omega) _ (by decide) (by decide)
  have nMi : ∀ c ∈ ("ss".data : List Char), c ∉ pad2 (intToStr (getMinutes t)) := by
    intro c hc; rw [hball c hc]; exact letter_not_pad2 _ (by omega) _ (by decide) (by decide)
  unfold formatDate
  apply rf_same_keeps
  rw [rf_other_cd _ "ss".data "mm".data _ (by decide) (by decide)
      (pad2_ne_nil _ (intToStr_ne_nil _)) (by decide) nMi,
    rf_other_cd _ "ss".data "HH".data _ (by decide) (by decide)
      (pad2_ne_nil _ (intToStr_ne_nil _)) (by decide) nH,
    rf_other_cd _ "ss".data "DD".data _ (by decide) (by decide)
      (pad2_ne_nil _ (intToStr_ne_nil _)) (by decide) nD,
    rf_other_cd _ "ss".data "MM".data _ (by decide) (by decide)
      (pad2_ne_nil _ (intToStr_ne_nil _)) (by decide) nM,
    rf_other_cd _ "ss".data "YYYY".data _ (by decide) (by decide)
      (intToStr_ne_nil _) (by decide) nY]
  exact h

def tokenList : List (List Char) :=
  ["YYYY".data, "MM".data, "DD".data, "HH".data, "mm".data, "ss".data]

/- ======================  the claims  ====================== -/

/-- C9: formatDate substitutes only the first occurrence of each recognized token:
a template containing no occurrence of any token is returned unchanged, and a
template containing at least two disjoint occurrences of a token still contains
an occurrence of that token after formatting (the later occurrence is left intact). -/
theorem claim_C9_first_occurrence_only (t : Int) (fmt : List Char) :
    ((∀ tok ∈ tokenList, countOcc fmt tok = 0) → formatDate t fmt = fmt) ∧
    (∀ tok ∈ tokenList, 2 ≤ countDisjoint fmt tok →
      1 ≤ countOcc (formatDate t fmt) tok) := by
  constructor
  · intro h
    unfold formatDate
    rw [rf_nooc fmt "YYYY".data _ (h _ (by decide)),
      rf_nooc fmt "MM".data _ (h _ (by decide)),
      rf_nooc fmt "DD".data _ (h _ (by decide)),
      rf_nooc fmt "HH".data _ (h _ (by decide)),
      rf_nooc fmt "mm".data _ (h _ (by decide)),
      rf_nooc fmt "ss".data _ (h _ (by decide))]
  · intro tok htok h2
    simp only [tokenList, List.mem_cons, List.not_mem_nil, or_false] at htok
    rcases htok with h' | h' | h' | h' | h' | h'
    · subst h'; exact fd_keeps_Y t fmt h2
    · subst h'; exact fd_keeps_M t fmt h2
    · subst h'; exact fd_keeps_D t fmt h2
    · subst h'; exact fd_keeps_H t fmt h2
    · subst h'; exact fd_keeps_mi t fmt h2
    · subst h'; exact fd_keeps_s t fmt h2

/-- C9 witness: on a token-free template formatDate is the identity, and in a
template holding the DD token twice an occurrence of DD survives formatting. -/
theorem claim_C9_witness :
    formatDate 0 "no tokens here".data = "no tokens here".data ∧
    1 ≤ countOcc (formatDate 0 "DD..DD".data) "DD".data := by
  constructor
  · exact (claim_C9_first_occurrence_only 0 "no tokens here".data).1 (by decide)
  · exact (claim_C9_first_occurrence_only 0 "DD..DD".data).2 "DD".data (by decide) (by decide)

/-- C1 (corrected): for an instant whose year field is at least 100 — so the
two-digit-year rule of the Date constructor does not fire when the string is
parsed back — formatting with "YYYY-MM-DD", parsing, and formatting again
reproduces the same string.  The original claim, quantified over every instant
with zero time-of-day fields, is refuted by claim_C1_cex (year 0). -/
theorem claim_C1_roundtrip (d : Int) (hy : 100 ≤ getFullYear d)
    (hh : getHours d = 0) (hmi : getMinutes d = 0) (hsec : getSeconds d = 0) :
    (parseDate (formatDate d "YYYY-MM-DD".data)).map
        (fun d2 => formatDate d2 "YYYY-MM-DD".data) =
      some (formatDate d "YYYY-MM-DD".data) := by
  have hb := time_fields_bounds d
  have hYd : ∀ c ∈ intToStr (getFullYear d), c.isDigit = true := by
    rw [intToStr_nonneg _ (by omega)]; exact natToStr_digits _
  have hMd : ∀ c ∈ pad2 (intToStr (getMonth d + 1)), c.isDigit = true :=
    pad2_intToStr_digits _ (by omega)
  have hDd : ∀ c ∈ pad2 (intToStr (getDate d)), c.isDigit = true :=
    pad2_intToStr_digits _ (by omega)
  have hY0 : '-' ∉ intToStr (getFullYear d) := fun hm => by
    have := hYd _ hm; exact absurd this (by decide)
  have hM0 : '-' ∉ pad2 (intToStr (getMonth d + 1)) := fun hm => by
    have := hMd _ hm; exact absurd this (by decide)
  have hD0 : '-' ∉ pad2 (intToStr (getDate d)) := fun hm => by
    have := hDd _ hm; exact absurd this (by decide)
  have hparse := parseDate_three (intToStr (getFullYear d))
    (pad2 (intToStr (getMonth d + 1))) (pad2 (intToStr (getDate d))) hY0 hM0 hD0
    (getFullYear d) (getMonth d + 1) (getDate d) (parseIntJS_intToStr _)
    (parseIntJS_pad2_digits _ (by omega)) (parseIntJS_pad2_digits _ (by omega))
  have hd2 : getDate d ≤ daysInMonthSpec (getMonth d + 1) (getFullYear d) := by
    have hfr := fields_range (dayOfTv d)
    have hdim := dims_eq_mlen (getMonth d) (getFullYear d) (by omega) (by omega)
    unfold getDate getMonth getFullYear yearOfDay at *
    omega
  have hfields := mkLocalDate_fields (getFullYear d) (getMonth d + 1) (getDate d)
    (Or.inr hy) (by omega) (by omega) (by omega) hd2
  rw [formatDate_ymd d, hparse]
  simp only [Option.map_some']
  congr 1
  rw [formatDate_ymd (mkLocalDate (getFullYear d) (getMonth d + 1 - 1) (getDate d)),
    hfields.2.1, hfields.2.2.1, hfields.2.2.2.1,
    show getMonth d + 1 - 1 + 1 = getMonth d + 1 from by ring]

/-- C1 witness: the round trip at 2024-03-05 (an instant with zero time of day). -/
theorem claim_C1_witness :
    (parseDate (formatDate (86400000 * makeDay 2024 2 5) "YYYY-MM-DD".data)).map
        (fun d2 => formatDate d2 "YYYY-MM-DD".data) =
      some (formatDate (86400000 * makeDay 2024 2 5) "YYYY-MM-DD".data) :=
  claim_C1_roundtrip _ (by decide) (by decide) (by decide) (by decide)

/-- C1 counterexample: midnight of January 1 of year 0 has zero hour, minute and
second fields, yet the format–parse–format round trip does not reproduce the
string: formatDate renders year 0 as "0", and parsing "0-01-01" lands in 1900
by the two-digit-year rule, so the second formatting yields "1900-01-01". -/
theorem claim_C1_cex :
    getHours (-62167219200000) = 0 ∧ getMinutes (-62167219200000) = 0 ∧
    getSeconds (-62167219200000) = 0 ∧
    formatDate (-62167219200000) "YYYY-MM-DD".data = "0-01-01".data ∧
    (parseDate (formatDate (-62167219200000) "YYYY-MM-DD".data)).map
        (fun d2 => formatDate d2 "YYYY-MM-DD".data) ≠
      some (formatDate (-62167219200000) "YYYY-MM-DD".data) := by decide

/-- C2 (corrected): parseDate splits on '-' and maps parseInt over the parts;
it is invalid (none) iff the first three parts do not all parse as integers —
extra parts beyond the third are ignored, not rejected.  When the first three
parts parse as y, m, d the result is the Date-constructor value for
year y, zero-based month m - 1, day d (local midnight).  The original claim's
"exactly three hyphen-separated parts" is refuted by claim_C2_cex. -/
theorem claim_C2_parseDate (s : List Char) :
    (parseDate s = none ↔
      ¬∃ v0 v1 v2 rest, (splitOnChar '-' s).map parseIntJS =
        some v0 :: some v1 :: some v2 :: rest) ∧
    (∀ v0 v1 v2 rest, (splitOnChar '-' s).map parseIntJS =
        some v0 :: some v1 :: some v2 :: rest →
      parseDate s = some (mkLocalDate v0 (v1 - 1) v2)) := by
  refine ⟨parseDate_none_iff s, ?_⟩
  intro v0 v1 v2 rest h
  simp [parseDate, h]

/-- C2 witness: parseDate "2024-03-05" is the Date value for year 2024,
month 3 (1-based), day 5, at local midnight. -/
theorem claim_C2_witness :
    parseDate "2024-03-05".data = some (mkLocalDate 2024 2 5) ∧
    getFullYear (mkLocalDate 2024 2 5) = 2024 ∧
    getMonth (mkLocalDate 2024 2 5) + 1 = 3 ∧
    getDate (mkLocalDate 2024 2 5) = 5 ∧
    getHours (mkLocalDate 2024 2 5) = 0 :=
  ⟨(claim_C2_parseDate "2024-03-05".data).2 2024 3 5 [] (by decide),
    by decide, by decide, by decide, by decide⟩

/-- C2 counterexample: "2024-03-05-99" splits into four parts, not three, yet
parseDate accepts it (the fourth part is ignored), refuting the claimed
"invalid iff not exactly three hyphen-separated parts". -/
theorem claim_C2_cex :
    (splitOnChar '-' "2024-03-05-99".data).length = 4 ∧
    parseDate "2024-03-05-99".data = some (mkLocalDate 2024 2 5) := by decide

/-- C3 (corrected): for every instant and every template, formatDate replaces
the first occurrence of each recognized token with a fixed substitution string:
MM, DD, HH, mm, ss receive the month, day-of-month, hour, minute, second
zero-padded to exactly 2 decimal digits (each padded string decodes back to
the field value), while YYYY receives the year rendered in unpadded decimal,
whose rendering consists of 4 digits exactly when the year lies in
[1000, 9999].  The original "year rendered as 4 digits" is refuted by
claim_C3_cex (year 0 renders as "0"). -/
theorem claim_C3_substitution (t : Int) (fmt : List Char) :
    formatDate t fmt =
      replaceFirst
        (replaceFirst
          (replaceFirst
            (replaceFirst
              (replaceFirst
                (replaceFirst fmt "YYYY".data (intToStr (getFullYear t)))
                "MM".data (pad2 (intToStr (getMonth t + 1))))
              "DD".data (pad2 (intToStr (getDate t))))
            "HH".data (pad2 (intToStr (getHours t))))
          "mm".data (pad2 (intToStr (getMinutes t))))
        "ss".data (pad2 (intToStr (getSeconds t))) ∧
    (∀ v ∈ [getMonth t + 1, getDate t, getHours t, getMinutes t, getSeconds t],
      (pad2 (intToStr v)).length = 2 ∧
      (∀ c ∈ pad2 (intToStr v), c.isDigit = true) ∧
      decodeDigits (pad2 (intToStr v)) = v) ∧
    ((∀ c ∈ intToStr (getFullYear t), c.isDigit = true) ∧
        (intToStr (getFullYear t)).length = 4 ↔
      1000 ≤ getFullYear t ∧ getFullYear t ≤ 9999) := by
  have hb := time_fields_bounds t
  refine ⟨rfl, ?_, ?_, ?_⟩
  · intro v hv
    have hv2 : 0 ≤ v ∧ v < 100 := by
      simp only [List.mem_cons, List.not_mem_nil, or_false] at hv
      rcases hv with h | h | h | h | h <;> subst h <;> omega
    refine ⟨?_, pad2_intToStr_digits _ hv2.1, ?_⟩
    · apply pad2_length
      rw [intToStr_nonneg _ hv2.1]
      exact natToStr_len_le2 _ (by omega)
    · rw [decode_pad2, intToStr_nonneg _ hv2.1]
      exact decode_natToStr_toNat _ hv2.1
  · rintro ⟨hdig, hlen⟩
    have hy0 : 0 ≤ getFullYear t := by
      by_contra hneg
      have hm : '-' ∈ intToStr (getFullYear t) := by
        unfold intToStr
        rw [if_pos (by omega)]
        exact List.mem_cons_self _ _
      exact absurd (hdig _ hm) (by decide)
    rw [intToStr_nonneg _ hy0] at hlen
    constructor
    · by_contra hlt
      have h3 := natToStr_len_le3 (getFullYear t).toNat (by omega)
      omega
    · by_contra hgt
      have h5 := natToStr_len_ge5 (getFullYear t).toNat (by omega)
      omega
  · rintro ⟨h1, h2⟩
    refine ⟨?_, ?_⟩
    · rw [intToStr_nonneg _ (by omega)]
      exact natToStr_digits _
    · rw [intToStr_nonneg _ (by omega)]
      exact natToStr_len4 _ (by omega) (by omega)

/-- C3 witness: on 2024-03-05 the template "YYYY-MM-DD" yields "2024-03-05",
the month replacement "03" has exactly 2 digits, and the year replacement
"2024" has exactly 4. -/
theorem claim_C3_witness :
    formatDate (86400000 * makeDay 2024 2 5) "YYYY-MM-DD".data = "2024-03-05".data ∧
    (pad2 (intToStr (getMonth (86400000 * makeDay 2024 2 5) + 1))).length = 2 ∧
    (intToStr (getFullYear (86400000 * makeDay 2024 2 5))).length = 4 := by
  refine ⟨by decide, ?_, ?_⟩
  · exact ((claim_C3_substitution (86400000 * makeDay 2024 2 5) "YYYY-MM-DD".data).2.1
      (getMonth (86400000 * makeDay 2024 2 5) + 1) (by decide)).1
  · exact ((claim_C3_substitution (86400000 * makeDay 2024 2 5) "YYYY-MM-DD".data).2.2.mpr
      ⟨by decide, by decide⟩).2

/-- C3 counterexample: at midnight of January 1 of year 0 the YYYY token is
replaced by "0", one character, not a 4-digit rendering of the year. -/
theorem claim_C3_cex :
    formatDate (-62167219200000) "YYYY".data = "0".data ∧
    ("0".data : List Char).length ≠ 4 := by decide

/-- C4: for a date not after the ambient now, timeAgo equals the cascading
bucket classification of the elapsed whole seconds (365-day years, 30-day
months, "Yesterday" for exactly one whole day, then days, hours, minutes,
seconds, each bucket by floor division); 90 elapsed seconds give
"1 minutes ago", 86400 give "Yesterday", 172800 give "2 days ago". -/
theorem claim_C4_timeAgo (now t : Int) (h : t ≤ now) :
    timeAgo now t = timeAgoSpec ((now - t) / 1000) ∧
    timeAgo 90000 0 = "1 minutes ago".data ∧
    timeAgo 86400000 0 = "Yesterday".data ∧
    timeAgo 172800000 0 = "2 days ago".data :=
  ⟨timeAgo_eq_spec now t h, by decide, by decide, by decide⟩

/-- C4 witness: the bucket classification at 90 elapsed seconds. -/
theorem claim_C4_witness :
    timeAgo 90000 0 = timeAgoSpec 90 ∧ timeAgoSpec 90 = "1 minutes ago".data := by
  constructor
  · exact (claim_C4_timeAgo 90000 0 (by decide)).1
  · decide

/-- C5 (corrected): getWeekNumber is the ceiling formula
ceil((dayOfYear + weekdayOfJan1 + 1) / 7), but with the weekday of January 1
taken for the two-digit-adjusted year (years 0–99 are mapped to 1900–1999 by
the Date constructor building January 1); for years outside 0–99 this is
exactly the claimed formula.  The unadjusted formula is refuted by
claim_C5_cex (January 3 of year 0). -/
theorem claim_C5_weekNumber (t : Int) :
    getWeekNumber t =
      jsCeilDiv (getDayOfYear t + weekdayOfJan1 (twoDigitYearAdjust (getFullYear t)) + 1) 7 ∧
    (getFullYear t < 0 ∨ 100 ≤ getFullYear t →
      getWeekNumber t =
        jsCeilDiv (getDayOfYear t + weekdayOfJan1 (getFullYear t) + 1) 7) := by
  refine ⟨getWeekNumber_eq t, fun hy => ?_⟩
  have hadj : twoDigitYearAdjust (getFullYear t) = getFullYear t := by
    unfold twoDigitYearAdjust; rw [if_neg (by omega)]
  rw [getWeekNumber_eq t, hadj]

/-- C5 witness: on 2024-03-05 the week number matches the claimed formula. -/
theorem claim_C5_witness :
    getWeekNumber (86400000 * makeDay 2024 2 5) =
      jsCeilDiv (getDayOfYear (86400000 * makeDay 2024 2 5) +
        weekdayOfJan1 (getFullYear (86400000 * makeDay 2024 2 5)) + 1) 7 :=
  (claim_C5_weekNumber _).2 (by decide)

/-- C5 counterexample: on January 3 of year 0 the claimed formula (weekday of
January 1 of the instant's own year) disagrees with getWeekNumber, because the
code builds January 1 through the Date constructor, which remaps year 0
to 1900. -/
theorem claim_C5_cex :
    getWeekNumber (-62167046400000) ≠
      jsCeilDiv (getDayOfYear (-62167046400000) +
        weekdayOfJan1 (getFullYear (-62167046400000)) + 1) 7 := by decide

/-- C6 (corrected): for an instant whose year is outside the two-digit range
0–99 (where the Date constructor remaps the start-of-year anchor to 1900–1999),
getDayOfYear is the 1-based ordinal day of the year: it equals the days before
the instant's month plus its day of month, January 1 gives 1, and the value is
bounded by 365 plus the leap-day count of the year (366 in a leap year).  The
unrestricted claim is refuted by claim_C6_cex (January 1 of year 0). -/
theorem claim_C6_dayOfYear (t : Int) (hy : getFullYear t < 0 ∨ 100 ≤ getFullYear t) :
    getDayOfYear t = ordinalDaySpec (getFullYear t) (getMonth t + 1) (getDate t) ∧
    1 ≤ getDayOfYear t ∧
    getDayOfYear t ≤ 365 + leapDays (getFullYear t) ∧
    (getMonth t = 0 → getDate t = 1 → getDayOfYear t = 1) := by
  have h := getDayOfYear_noquirk t hy
  refine ⟨h.1, h.2.1, h.2.2, fun hm hd => ?_⟩
  rw [h.1, hm, hd]
  unfold ordinalDaySpec
  rw [show (0 : Int) + 1 - 1 = 0 from by norm_num, dbm_0]
  norm_num

/-- C6 witness: parseDate "2024-01-01" is midnight of January 1 of 2024, and its
day of year is 1. -/
theorem claim_C6_witness :
    parseDate "2024-01-01".data = some (86400000 * makeDay 2024 0 1) ∧
    getDayOfYear (86400000 * makeDay 2024 0 1) = 1 := by
  refine ⟨by decide, ?_⟩
  exact (claim_C6_dayOfYear (86400000 * makeDay 2024 0 1) (by decide)).2.2.2
    (by decide) (by decide)

/-- C6 counterexample: January 1 of year 0 does not give day-of-year 1: the
start-of-year anchor new Date(0, 0, 0) lands in 1899 by the two-digit-year
rule, so getDayOfYear returns -693960. -/
theorem claim_C6_cex :
    getFullYear (-62167219200000) = 0 ∧ getMonth (-62167219200000) = 0 ∧
    getDate (-62167219200000) = 1 ∧
    getDayOfYear (-62167219200000) = -693960 := by decide

/-- C7: addDays advances the calendar date of the instant by the given number
of days (positive, zero, or negative) with month and year rollover — the
(year, 1-based month, day) triple of the result is the days-fold of the
calendar-successor (or predecessor) function applied to the input's triple — and the
hour, minute, and second fields are unchanged; in particular one day past
2024-02-28 is 2024-02-29 and one day past 2023-02-28 is 2023-03-01. -/
theorem claim_C7_addDays (t k : Int) :
    civilOfDay (dayOfTv (addDays t k)) = advanceCalendarDays (civilOfDay (dayOfTv t)) k ∧
    getHours (addDays t k) = getHours t ∧
    getMinutes (addDays t k) = getMinutes t ∧
    getSeconds (addDays t k) = getSeconds t ∧
    civilOfDay (dayOfTv (addDays (86400000 * makeDay 2024 1 28) 1)) = (2024, 2, 29) ∧
    civilOfDay (dayOfTv (addDays (86400000 * makeDay 2023 1 28) 1)) = (2023, 3, 1) := by
  have he : addDays t k = t + 86400000 * k := addDays_eq t k
  have hd : dayOfTv (addDays t k) = dayOfTv t + k := by
    rw [he]; unfold dayOfTv; omega
  refine ⟨?_, ?_, ?_, ?_, by decide, by decide⟩
  · rw [hd]; exact civil_advance (dayOfTv t) k
  · rw [he]; unfold getHours; omega
  · rw [he]; unfold getMinutes; omega
  · rw [he]; unfold getSeconds; omega

/-- C8 (corrected): for years outside the two-digit range 0–99, getDaysInMonth
returns the true month length (31/30, 28 or 29 for February by the leap rule);
getDaysInMonth(2, 2024) = 29 and getDaysInMonth(2, 2023) = 28.  For years 0–99
the Date constructor remaps the year to 1900–1999, refuted in claim_C8_cex:
year 0 is a leap year but getDaysInMonth(2, 0) = 28. -/
theorem claim_C8_daysInMonth (m y : Int) (hm1 : 1 ≤ m) (hm2 : m ≤ 12)
    (hy : y < 0 ∨ 100 ≤ y) :
    getDaysInMonth m y = daysInMonthSpec m y ∧
    getDaysInMonth 2 2024 = 29 ∧ getDaysInMonth 2 2023 = 28 :=
  ⟨getDaysInMonth_noquirk m y hm1 hm2 hy, by decide, by decide⟩

/-- C8 witness: February 2024 has 29 days. -/
theorem claim_C8_witness :
    getDaysInMonth 2 2024 = daysInMonthSpec 2 2024 ∧ daysInMonthSpec 2 2024 = 29 :=
  ⟨(claim_C8_daysInMonth 2 2024 (by decide) (by decide) (Or.inr (by decide))).1, by decide⟩

/-- C8 counterexample: year 0 is a leap year (divisible by 400), so February
has 29 days, but getDaysInMonth(2, 0) evaluates the month length of February
1900 and returns 28. -/
theorem claim_C8_cex :
    leapDays 0 = 1 ∧ daysInMonthSpec 2 0 = 29 ∧ getDaysInMonth 2 0 = 28 := by decide

/-- C10: getWeekNumber is not bounded by 53: December 31 of the leap year 2000,
whose January 1 is a Saturday (weekday 6), has day-of-year 366 and week number
ceil((366 + 6 + 1) / 7) = 54. -/
theorem claim_C10_week54 :
    getFullYear (86400000 * makeDay 2000 11 31) = 2000 ∧
    getMonth (86400000 * makeDay 2000 11 31) = 11 ∧
    getDate (86400000 * makeDay 2000 11 31) = 31 ∧
    getDayOfYear (86400000 * makeDay 2000 11 31) = 366 ∧
    weekdayOfJan1 2000 = 6 ∧
    getWeekNumber (86400000 * makeDay 2000 11 31) = 54 ∧
    53 < getWeekNumber (86400000 * makeDay 2000 11 31) := by decide
